import Mathlib

/-!
# ffmpeg-tools: conversion-process lifecycle manager

A shallow embedding of `app.go`, `internal/ffmpeg/converter.go` and
`internal/ffmpeg/downloader.go`, followed by the properties proved about it.

Conventions of the embedding.

* Go `string` is `String`; the helpers work on the character list.
* Go `int` / `int64` are `Int`; where the source multiplies an `int64` the
  result is wrapped into the 64-bit two's-complement range.
* Go `float64` is modelled by exact rational arithmetic (`ℚ`): rounding,
  infinities and NaN are outside the model.
* The operating system (command search, file system, subprocesses, HTTP) is an
  explicit environment record; every effect a function performs is appended to
  an event trace that the function returns together with its result.
* `path/filepath` is modelled in its Unix form: `/` is the separator and there
  are no volume names; on Windows the library differs in both.
-/

namespace FFmpegTools

/-! ## Library functions used by the source -/

/-- Models `strings.HasSuffix` on character lists. -/
def hasSuffixChars (s suffix : List Char) : Bool :=
  suffix.reverse.isPrefixOf s.reverse

/-- Models `strings.TrimSuffix`: `s` without the trailing `suffix`, or `s` itself
when it does not end in `suffix`. -/
def TrimSuffix (s suffix : String) : String :=
  if hasSuffixChars s.data suffix.data then
    ⟨s.data.take (s.data.length - suffix.data.length)⟩
  else s

/-- Models `strings.Contains` on character lists: some tail of `s` starts with `sub`. -/
def containsChars : List Char → List Char → Bool
  | [], sub => sub.isEmpty
  | c :: cs, sub => sub.isPrefixOf (c :: cs) || containsChars cs sub

/-- Models `strings.Contains`. -/
def Contains (s sub : String) : Bool := containsChars s.data sub.data

/-- Models `strconv.Itoa`: the decimal rendering of an integer. -/
def Itoa (n : Int) : String := toString n

/-- Models `os.IsPathSeparator`. -/
def isPathSeparator (c : Char) : Bool := c == '/'

/-- The backtracking loop of `filepath.Clean` for a `..` element: starting at
write index `w`, step left while `w > dotdot` and `buf[w]` is no separator. -/
def cleanBacktrack (buf : List Char) (dotdot : Nat) : Nat → Nat
  | 0 => 0
  | w + 1 =>
    if dotdot < w + 1 && !isPathSeparator (buf.getD (w + 1) '/') then
      cleanBacktrack buf dotdot w
    else w + 1

/-- The main loop of `filepath.Clean`: `rest` is the unread part of the path,
`out` the buffer written so far and `dotdot` the index where `..` must stop.
Every round consumes at least one character of `rest`. -/
def cleanLoop (rooted : Bool) : Nat → List Char → List Char → Nat → List Char
  | 0, _, out, _ => out
  | _ + 1, [], out, _ => out
  | fuel + 1, c :: rs, out, dotdot =>
    if isPathSeparator c then
      -- empty path element
      cleanLoop rooted fuel rs out dotdot
    else if c == '.' && (rs.isEmpty || rs.head?.any isPathSeparator) then
      -- . element
      cleanLoop rooted fuel rs out dotdot
    else if c == '.' && rs.head? == some '.' &&
        (rs.tail.isEmpty || rs.tail.head?.any isPathSeparator) then
      -- .. element: remove to last separator
      if dotdot < out.length then
        cleanLoop rooted fuel rs.tail
          (out.take (cleanBacktrack out dotdot (out.length - 1))) dotdot
      else if !rooted then
        let out1 := (if 0 < out.length then out ++ ['/'] else out) ++ ['.', '.']
        cleanLoop rooted fuel rs.tail out1 out1.length
      else
        cleanLoop rooted fuel rs.tail out dotdot
    else
      -- real path element: add slash if needed, then copy the element
      let out1 :=
        if (rooted && out.length != 1) || (!rooted && out.length != 0) then out ++ ['/']
        else out
      cleanLoop rooted fuel ((c :: rs).dropWhile (fun x => !isPathSeparator x))
        (out1 ++ (c :: rs).takeWhile (fun x => !isPathSeparator x)) dotdot

/-- Models `filepath.Clean` on character lists. -/
def cleanChars (path : List Char) : List Char :=
  match path with
  | [] => ['.']
  | c :: rs =>
    let rooted := isPathSeparator c
    let out :=
      if rooted then cleanLoop true (path.length + 1) rs ['/'] 1
      else cleanLoop false (path.length + 1) path [] 0
    -- Turn empty string into "."
    if out.isEmpty then ['.'] else out

/-- Models `filepath.Clean`. -/
def Clean (path : String) : String := ⟨cleanChars path.data⟩

/-- Models `strings.Join(elem, "/")` on character lists. -/
def joinSep : List (List Char) → List Char
  | [] => []
  | [e] => e
  | e :: es => e ++ '/' :: joinSep es

/-- Models `filepath.Join` on character lists: leading empty elements are skipped,
the rest is joined with the separator and cleaned; all empty gives `""`. -/
def joinChars : List (List Char) → List Char
  | [] => []
  | e :: es => if e.isEmpty then joinChars es else cleanChars (joinSep (e :: es))

/-- Models `filepath.Join`. -/
def Join (elem : List String) : String := ⟨joinChars (elem.map String.data)⟩

/-- The scan of `filepath.Ext`, from the last character leftwards: `rev` is the
unread part (reversed), `acc` what was passed over. -/
def extScan : List Char → List Char → List Char
  | [], _ => []
  | c :: rev, acc =>
    if isPathSeparator c then []
    else if c == '.' then c :: acc
    else extScan rev (c :: acc)

/-- Models `filepath.Ext`: the suffix beginning at the final dot of the final element. -/
def Ext (path : String) : String := ⟨extScan path.data.reverse []⟩

/-- Models `filepath.Base`: the last element of the path, trailing slashes removed. -/
def Base (path : String) : String :=
  if path.data.isEmpty then "."
  else
    let stripped := path.data.reverse.dropWhile isPathSeparator
    let last := (stripped.takeWhile (fun x => !isPathSeparator x)).reverse
    if last.isEmpty then "/" else ⟨last⟩

/-- Models `filepath.Dir`: all but the last element of the path, cleaned. -/
def Dir (path : String) : String :=
  ⟨cleanChars (path.data.reverse.dropWhile (fun x => !isPathSeparator x)).reverse⟩

/-! ## converter.go: the transcode session -/

/-- The error a done context reports through `ctx.Err()`. -/
inductive CtxErr where
  | canceled
  | deadlineExceeded
  deriving DecidableEq, Repr

/-- The errors `ConvertMOVToVP9WebMWithContext` returns; `cause` is the text of
the wrapped operating-system error. -/
inductive ConvError where
  /-- Message `failed to create stdout pipe: %w`. -/
  | pipeFailed (cause : String)
  /-- Message `failed to start FFmpeg: %w`. -/
  | startFailed (cause : String)
  /-- The value of `ctx.Err()`, returned by the per-line check. -/
  | context (e : CtxErr)
  /-- The cancellation message built after `cmd.Wait`. -/
  | cancelled
  /-- Message `FFmpeg conversion failed: %w`. -/
  | conversionFailed (cause : String)
  deriving DecidableEq, Repr

/-- The text of `CtxErr`, as `Error()` renders it. -/
def CtxErr.Error : CtxErr → String
  | .canceled => "context canceled"
  | .deadlineExceeded => "context deadline exceeded"

/-- The text of `ConvError`, as `Error()` renders it. -/
def ConvError.Error : ConvError → String
  | .pipeFailed cause => "failed to create stdout pipe: " ++ cause
  | .startFailed cause => "failed to start FFmpeg: " ++ cause
  | .context e => e.Error
  | .cancelled => "转换已取消"
  | .conversionFailed cause => "FFmpeg conversion failed: " ++ cause

/-- The observable effects of one conversion, in the order they happen. -/
inductive ConvEvent where
  /-- The call `progressCallback(p)`. -/
  | progress (p : ℚ)
  /-- The call `cmd.Process.Kill()`. -/
  | kill
  /-- The call `os.Remove(path)`. -/
  | remove (path : String)
  deriving DecidableEq

/-- What the world supplies to one run of `ConvertMOVToVP9WebMWithContext`. -/
structure ConvEnv where
  /-- Result of `getVideoDuration`: the duration in seconds, `none` on error. -/
  probe : Option ℚ
  /-- Error of `cmd.StdoutPipe()`, if any. -/
  pipeErr : Option String
  /-- Error of `cmd.Start()`, if any. -/
  startErr : Option String
  /-- The lines `scanner.Scan()` delivers, each with what the `select` on
  `ctx.Done()` sees right after the line was read (`none`: not done). -/
  lines : List (Option CtxErr × String)
  /-- Error of `cmd.Wait()`, if any. -/
  waitErr : Option String
  /-- The value of `ctx.Err()` when it is read after a failed `cmd.Wait()`. -/
  ctxErrAtWait : Option CtxErr

/-- The duration used for progress: the probed one, `0` when the probe failed
(`duration = 0 // Continue without progress reporting`). -/
def probedDuration (env : ConvEnv) : ℚ :=
  match env.probe with
  | some d => d
  | none => 0

/-- The quality validation at the top of `ConvertMOVToVP9WebMWithContext`: two
successive assignments. -/
def validateQuality (quality : Int) : Int :=
  let quality := if quality < 0 then 0 else quality
  let quality := if quality > 63 then 63 else quality
  quality

/-- The FFmpeg argument list built by `ConvertMOVToVP9WebMWithContext`;
`quality` is the value after validation. -/
def ffmpegArgs (inputPath outputPath : String) (quality : Int) : List String :=
  [ "-i", inputPath,
    "-c:v", "libvpx-vp9",
    "-vf", "premultiply=inplace=1",
    "-pix_fmt", "yuva420p",
    "-color_range", "pc",
    "-crf", Itoa quality,
    "-b:v", "0",
    "-auto-alt-ref", "0",
    "-metadata:s:v:0", "alpha_mode=1",
    "-an",
    "-progress", "pipe:1",
    "-y",
    outputPath ]

/-- The literal prefix of the progress marker. -/
def timeMarker : List Char := "out_time_ms=".data

/-- A match of the pattern `out_time_ms=(\d+)` anchored at the head of `s`:
the captured digits (the longest run, at least one). -/
def matchMarkerAt (s : List Char) : Option (List Char) :=
  if timeMarker.isPrefixOf s then
    let digits := (s.drop timeMarker.length).takeWhile Char.isDigit
    if digits.isEmpty then none else some digits
  else none

/-- Models `timeRegex.FindStringSubmatch(line)`, reduced to its capture group: the
digits of the leftmost match, `none` when the line has no match. -/
def findTimeSubmatch : List Char → Option (List Char)
  | [] => none
  | c :: cs =>
    match matchMarkerAt (c :: cs) with
    | some digits => some digits
    | none => findTimeSubmatch cs

/-- The number a string of decimal digits denotes. -/
def digitsValue (digits : List Char) : Nat :=
  digits.foldl (fun acc c => 10 * acc + (c.toNat - '0'.toNat)) 0

/-- Models `strconv.ParseFloat(digits, 64)` on a string of decimal digits: the value,
or `none` (a range error) when it rounds to infinity, that is from
`2^1024 - 2^970` on. -/
def parseFloatDigits (digits : List Char) : Option ℚ :=
  if digitsValue digits < 2 ^ 1024 - 2 ^ 970 then some (digitsValue digits : ℚ) else none

/-- The elapsed value a line carries: the marker is present and its digits
parse. -/
def lineElapsed (line : String) : Option ℚ :=
  match findTimeSubmatch line.data with
  | some digits => parseFloatDigits digits
  | none => none

/-- The progress value computed from an elapsed value and the duration. -/
def progressOf (timeMs duration : ℚ) : ℚ :=
  let progress := (timeMs / 1000000) / duration * 100
  if progress > 100 then 100 else progress

/-- The body of the scan loop after the cancellation check: the events one
line produces. -/
def lineEvents (duration : ℚ) (hasCallback : Bool) (line : String) : List ConvEvent :=
  match findTimeSubmatch line.data with
  | some digits =>
    match parseFloatDigits digits with
    | some timeMs =>
      if duration > 0 then
        if hasCallback then [.progress (progressOf timeMs duration)] else []
      else []
    | none => []
  | none => []

/-- The loop `for scanner.Scan()`: the events, and the error of an early
return (`none`: the loop ran to the end of the output). -/
def scanLines (duration : ℚ) (hasCallback : Bool) (outputPath : String) :
    List (Option CtxErr × String) → List ConvEvent × Option ConvError
  | [] => ([], none)
  | (some e, _) :: _ => ([.kill, .remove outputPath], some (.context e))
  | (none, line) :: rest =>
    let r := scanLines duration hasCallback outputPath rest
    (lineEvents duration hasCallback line ++ r.1, r.2)

/-- The outcome of one conversion. -/
structure ConvOutcome where
  /-- The arguments given to `exec.CommandContext`. -/
  args : List String
  /-- The effects, in order. -/
  trace : List ConvEvent
  /-- The returned error, `none` for `nil`. -/
  err : Option ConvError

/-- Models `Converter.ConvertMOVToVP9WebMWithContext`; `hasCallback` says whether
`progressCallback` is non-nil. -/
def ConvertMOVToVP9WebMWithContext (env : ConvEnv) (inputPath outputPath : String)
    (quality : Int) (hasCallback : Bool) : ConvOutcome :=
  let quality := validateQuality quality
  let duration := probedDuration env
  let args := ffmpegArgs inputPath outputPath quality
  match env.pipeErr with
  | some cause => ⟨args, [], some (.pipeFailed cause)⟩
  | none =>
    match env.startErr with
    | some cause => ⟨args, [], some (.startFailed cause)⟩
    | none =>
      let scanned := scanLines duration hasCallback outputPath env.lines
      match scanned.2 with
      | some e => ⟨args, scanned.1, some e⟩
      | none =>
        match env.waitErr with
        | some cause =>
          if env.ctxErrAtWait.isSome then
            ⟨args, scanned.1 ++ [.remove outputPath], some .cancelled⟩
          else ⟨args, scanned.1, some (.conversionFailed cause)⟩
        | none =>
          ⟨args, scanned.1 ++ (if hasCallback then [.progress 100] else []), none⟩

/-- Models `Converter.ConvertMOVToVP9WebM`: the conversion under a background context. -/
def ConvertMOVToVP9WebM (env : ConvEnv) (inputPath outputPath : String)
    (quality : Int) (hasCallback : Bool) : ConvOutcome :=
  ConvertMOVToVP9WebMWithContext env inputPath outputPath quality hasCallback

/-- The progress samples of a trace, in order. -/
def progressSamples : List ConvEvent → List ℚ
  | [] => []
  | .progress p :: rest => p :: progressSamples rest
  | _ :: rest => progressSamples rest

/-! ## converter.go: the binary resolver and the media prober -/

/-- What the operating system answers to the resolver and the installer. -/
structure SysEnv where
  /-- Models `runtime.GOOS`. -/
  GOOS : String
  /-- Models `runtime.GOARCH`. -/
  GOARCH : String
  /-- Models `exec.LookPath(name)`: the path found by the command search, `none` on error. -/
  lookPath : String → Option String
  /-- A path returned by the command search is never the empty string: it is
  the name itself or a directory of the search path joined with the name. -/
  lookPath_nonempty : ∀ name found, lookPath name = some found → found ≠ ""
  /-- Models `os.Executable()`: the path of the running program, `none` on error. -/
  executable : Option String
  /-- Whether `os.Stat(path)` returns a nil error. -/
  statOk : String → Bool
  /-- Whether running `path -version` returns a nil error. -/
  versionOk : String → Bool
  /-- Whether `os.MkdirAll(path, 0755)` returns a nil error. -/
  mkdirAllOk : String → Bool

/-- The two path fields of `Converter`; the tracked subprocess handle and the
cancel function are the `ConvEnv` of a run. -/
structure Converter where
  ffmpegPath : String
  ffprobePath : String
  deriving DecidableEq, Repr

/-- Models `getPlatformDir`. -/
def getPlatformDir (env : SysEnv) : String := env.GOOS ++ "-" ++ env.GOARCH

/-- The transcoder's executable name on this platform. -/
def ffmpegBinName (env : SysEnv) : String :=
  if env.GOOS == "windows" then "ffmpeg.exe" else "ffmpeg"

/-- The prober's executable name on this platform. -/
def ffprobeBinName (env : SysEnv) : String :=
  if env.GOOS == "windows" then "ffprobe.exe" else "ffprobe"

/-- The directory of the running executable, `.` based when it is unknown. -/
def executableDir (env : SysEnv) : String :=
  let execPath := match env.executable with
    | some p => p
    | none => "."
  Dir execPath

/-- Models `Converter.initPaths` (and so `NewConverter`). -/
def initPaths (env : SysEnv) : Converter :=
  let ffmpegBin := ffmpegBinName env
  let ffprobeBin := ffprobeBinName env
  -- 1. the command search
  match env.lookPath ffmpegBin with
  | some envPath =>
    match env.lookPath ffprobeBin with
    | some probePath => ⟨envPath, probePath⟩
    | none => ⟨envPath, ffprobeBin⟩
  | none =>
    let execDir := executableDir env
    let platformDir := getPlatformDir env
    -- 2. resources/ffmpeg/<platform>
    let devPath := Join [execDir, "resources", "ffmpeg", platformDir, ffmpegBin]
    if env.statOk devPath then
      ⟨devPath, Join [execDir, "resources", "ffmpeg", platformDir, ffprobeBin]⟩
    else
      -- 3. resources/ffmpeg
      let devFallback := Join [execDir, "resources", "ffmpeg", ffmpegBin]
      if env.statOk devFallback then
        ⟨devFallback, Join [execDir, "resources", "ffmpeg", ffprobeBin]⟩
      else
        -- 4. the directory of the executable
        let prodPath := Join [execDir, ffmpegBin]
        if env.statOk prodPath then ⟨prodPath, Join [execDir, ffprobeBin]⟩
        else
          -- 5. the bare names
          ⟨ffmpegBin, ffprobeBin⟩

/-- Models `Converter.CheckFFmpegInstalled`: runs `c.ffmpegPath -version` and reports
whether that returned a nil error. -/
def CheckFFmpegInstalled (env : SysEnv) (c : Converter) : Bool :=
  env.versionOk c.ffmpegPath

/-- A value decoded from JSON into `interface{}`. Numbers, arrays and objects
that stand where a field value is expected carry the text the `%v` verb
prints for them. -/
inductive JVal where
  | null
  | bool (b : Bool)
  | number (text : String)
  | string (s : String)
  | composite (text : String)
  deriving DecidableEq, Repr

/-- Models `fmt.Sprintf("%v", v)`. -/
def sprintV : JVal → String
  | .null => "<nil>"
  | .bool true => "true"
  | .bool false => "false"
  | .number text => text
  | .string s => s
  | .composite text => text

/-- A decoded JSON object: the value under each key, `null` for a missing key
(what indexing a Go map yields). -/
abbrev JObject := String → JVal

/-- The decoded prober report, as far as `GetVideoInfo` looks into it. -/
structure ProbeReport where
  /-- Models `result["format"]` when it is an object. -/
  format : Option JObject
  /-- Models `result["streams"]` when it is an array: each element is an object
  (`some`) or another kind of value (`none`). -/
  streams : Option (List (Option JObject))

/-- What the prober run and the decoding of its output yield. -/
inductive ProbeOutput where
  | runFailed (cause : String)
  | parseFailed (cause : String)
  | report (r : ProbeReport)

/-- The result of `GetVideoInfo`: the info map in insertion order, an error,
or the run-time panic of a failed type assertion. -/
inductive InfoResult where
  | ok (info : List (String × JVal))
  | error (message : String)
  | panic
  deriving DecidableEq, Repr

/-- The alpha test of `GetVideoInfo` on the rendered pixel format. -/
def hasAlphaOf (pixFmt : String) : Bool :=
  Contains pixFmt "a" || Contains pixFmt "rgba" || Contains pixFmt "yuva"

/-- The loop over the streams in `GetVideoInfo`: the entries of the first
video stream, `none` on the panic of the type assertion. -/
def scanStreams : List (Option JObject) → Option (List (String × JVal))
  | [] => some []
  | none :: _ => none
  | some stream :: rest =>
    if stream "codec_type" = .string "video" then
      let pixFmt := sprintV (stream "pix_fmt")
      some [ ("width", stream "width"),
             ("height", stream "height"),
             ("codec", stream "codec_name"),
             ("fps", stream "r_frame_rate"),
             ("pixelFormat", stream "pix_fmt"),
             ("hasAlpha", .bool (hasAlphaOf pixFmt)) ]
    else scanStreams rest

/-- Models `Converter.GetVideoInfo`, from the outcome of the prober run on. -/
def GetVideoInfo (output : ProbeOutput) : InfoResult :=
  match output with
  | .runFailed cause => .error ("failed to get video info: " ++ cause)
  | .parseFailed cause => .error ("failed to parse video info: " ++ cause)
  | .report r =>
    let fromFormat := match r.format with
      | some format =>
        [ ("filename", format "filename"),
          ("duration", format "duration"),
          ("size", format "size"),
          ("bitrate", format "bit_rate") ]
      | none => []
    match r.streams with
    | some streams =>
      match scanStreams streams with
      | some fromStream => .ok (fromFormat ++ fromStream)
      | none => .panic
    | none => .ok fromFormat

/-- The value `GetVideoInfo` returns under `hasAlpha`, if it returns one. -/
def InfoResult.hasAlpha : InfoResult → Option JVal
  | .ok info => info.lookup "hasAlpha"
  | _ => none

/-! ## downloader.go: the archive installer -/

/-- Models `ffmpegVersion`. -/
def ffmpegVersion : String := "b6.1.1"

/-- Models `baseURL`. -/
def baseURL : String := "https://cdn.npmmirror.com/binaries/ffmpeg-static/" ++ ffmpegVersion

/-- Models `platformInfo`. -/
structure platformInfo where
  ffmpegURL : String
  ffprobeURL : String
  ext : String
  deriving DecidableEq, Repr

/-- The `platformMap` literal of `getPlatformInfo`. -/
def platformMap : List (String × platformInfo) :=
  [ ("windows-amd64",
      ⟨baseURL ++ "/ffmpeg-win32-x64.gz", baseURL ++ "/ffprobe-win32-x64.gz", ".exe"⟩),
    ("darwin-amd64",
      ⟨baseURL ++ "/ffmpeg-darwin-x64.gz", baseURL ++ "/ffprobe-darwin-x64.gz", ""⟩),
    ("darwin-arm64",
      ⟨baseURL ++ "/ffmpeg-darwin-arm64.gz", baseURL ++ "/ffprobe-darwin-arm64.gz", ""⟩) ]

/-- The errors of `downloadAndExtract`. -/
inductive DlError where
  /-- Message `HTTP 请求失败: %w`. -/
  | requestFailed
  /-- Message `HTTP 错误: %d`. -/
  | httpStatus (code : Nat)
  /-- Message `创建 gzip reader 失败: %w`. -/
  | gzipFailed
  /-- Message `创建文件失败: %w`. -/
  | createFailed
  /-- The write error, returned as it is by the progress loop. -/
  | writeFailed
  /-- The read error, returned as it is by the progress loop. -/
  | readFailed
  /-- Message `写入文件失败: %w`, from the copy without progress. -/
  | copyFailed
  deriving DecidableEq, Repr

/-- The errors of `EnsureFFmpeg`. -/
inductive SetupError where
  /-- Message `unsupported platform: %s`. -/
  | unsupportedPlatform (platform : String)
  /-- Message `创建目录失败: %w`. -/
  | mkdirFailed
  /-- Message `下载 ffmpeg 失败: %w`. -/
  | ffmpegDownload (e : DlError)
  /-- Message `下载 ffprobe 失败: %w`. -/
  | ffprobeDownload (e : DlError)
  deriving DecidableEq, Repr

/-- Models `getPlatformInfo`. -/
def getPlatformInfo (env : SysEnv) : Except SetupError platformInfo :=
  let platform := env.GOOS ++ "-" ++ env.GOARCH
  match platformMap.lookup platform with
  | some info => .ok info
  | none => .error (.unsupportedPlatform platform)

/-- The error part of the result of one `gzReader.Read`. -/
inductive ReadErr where
  | none
  | eof
  | other
  deriving DecidableEq, Repr

/-- One round of the copy loop: `gzReader.Read(buf)` returned `(n, err)`, and
`writeErr` says whether writing these `n` bytes to the file fails. -/
structure ReadStep where
  n : Nat
  err : ReadErr
  writeErr : Bool
  deriving DecidableEq, Repr

/-- An HTTP response as `downloadAndExtract` uses it. -/
structure HttpResponse where
  /-- Models `resp.StatusCode`. -/
  statusCode : Nat
  /-- Models `resp.ContentLength`. -/
  contentLength : Int
  /-- Whether `gzip.NewReader(resp.Body)` succeeds. -/
  gzipOk : Bool
  /-- The results of the successive reads of the decompressed stream; after
  the last one a read returns `(0, io.EOF)`. -/
  reads : List ReadStep

/-- What the network and the file system answer to `downloadAndExtract`. -/
structure NetEnv where
  /-- Models `http.Get(url)`: the response, `none` on error. -/
  httpGet : String → Option HttpResponse
  /-- Whether `os.Create(path)` succeeds. -/
  createOk : String → Bool

/-- The observable effects of `downloadAndExtract`, in order. -/
inductive DlEvent where
  /-- The request `http.Get(url)`. -/
  | httpGet (url : String)
  /-- The call `os.Create(path)`. -/
  | create (path : String)
  /-- A successful `outFile.Write` of `n` bytes. -/
  | write (n : Nat)
  /-- The call `progressCallback(p)`. -/
  | estimate (p : ℚ)
  deriving DecidableEq

/-- A 64-bit signed integer operation result: the value reduced into
`[-2^63, 2^63)`. -/
def wrapInt64 (x : Int) : Int := (x + 2 ^ 63) % 2 ^ 64 - 2 ^ 63

/-- The estimate computed after a chunk was written. -/
def estimateOf (written contentLength : Int) : ℚ :=
  let progress := (written : ℚ) / (wrapInt64 (contentLength * 3) : ℚ) * 100
  if progress > 100 then 99 else progress

/-- The copy loop of `downloadAndExtract`; `report` chooses between the loop
with progress (`true`) and `io.Copy` (`false`), which do the same reads and
writes. Returns the events and whether a write or a read failed. -/
def copyLoop (contentLength : Int) (report : Bool) :
    List ReadStep → Int → List DlEvent × Option DlError
  | [], _ => ([], none)
  | r :: rest, written =>
    if 0 < r.n then
      if r.writeErr then ([], some .writeFailed)
      else
        let written := wrapInt64 (written + r.n)
        let events := DlEvent.write r.n ::
          (if report then [DlEvent.estimate (estimateOf written contentLength)] else [])
        match r.err with
        | .eof => (events, none)
        | .other => (events, some .readFailed)
        | .none =>
          let t := copyLoop contentLength report rest written
          (events ++ t.1, t.2)
    else
      match r.err with
      | .eof => ([], none)
      | .other => ([], some .readFailed)
      | .none => copyLoop contentLength report rest written

/-- Models `downloadAndExtract`; `hasCallback` says whether `progressCallback` is
non-nil. -/
def downloadAndExtract (net : NetEnv) (url outputPath : String) (hasCallback : Bool) :
    List DlEvent × Option DlError :=
  match net.httpGet url with
  | none => ([.httpGet url], some .requestFailed)
  | some resp =>
    if resp.statusCode != 200 then ([.httpGet url], some (.httpStatus resp.statusCode))
    else if !resp.gzipOk then ([.httpGet url], some .gzipFailed)
    else if !net.createOk outputPath then
      ([.httpGet url, .create outputPath], some .createFailed)
    else
      let opened := [DlEvent.httpGet url, DlEvent.create outputPath]
      let final := if hasCallback then [DlEvent.estimate 100] else []
      if 0 < resp.contentLength && hasCallback then
        let copied := copyLoop resp.contentLength true resp.reads 0
        match copied.2 with
        | some e => (opened ++ copied.1, some e)
        | none => (opened ++ copied.1 ++ final, none)
      else
        let copied := copyLoop resp.contentLength false resp.reads 0
        match copied.2 with
        | some _ => (opened ++ copied.1, some .copyFailed)
        | none => (opened ++ copied.1 ++ final, none)

/-- The estimates of a download trace, in order. -/
def estimates : List DlEvent → List ℚ
  | [] => []
  | .estimate p :: rest => p :: estimates rest
  | _ :: rest => estimates rest

/-- The observable effects of `EnsureFFmpeg`, in order. -/
inductive SetupEvent where
  /-- The self-test run `path -version`. -/
  | runVersion (path : String)
  /-- The call `progressCallback(status, progress)`. -/
  | callback (status : String) (progress : ℚ)
  /-- The call `os.MkdirAll(path, 0755)`. -/
  | mkdirAll (path : String)
  /-- The request `http.Get(url)`. -/
  | httpGet (url : String)
  /-- The call `os.Create(path)`. -/
  | create (path : String)
  /-- A successful write of `n` bytes. -/
  | write (n : Nat)
  /-- The call `os.Chmod(path, 0755)`. -/
  | chmod (path : String)
  deriving DecidableEq

/-- A download event as `EnsureFFmpeg` shows it: the closure handed to
`downloadAndExtract` forwards `status` and `base + p * 0.4` to the caller's
callback when that is non-nil. -/
def liftDl (status : String) (base : ℚ) (hasCallback : Bool) : DlEvent → List SetupEvent
  | .httpGet url => [.httpGet url]
  | .create path => [.create path]
  | .write n => [.write n]
  | .estimate p => if hasCallback then [.callback status (base + p * (4 / 10))] else []

/-- Models `EnsureFFmpeg`; `hasCallback` says whether `progressCallback` is non-nil. -/
def EnsureFFmpeg (env : SysEnv) (net : NetEnv) (hasCallback : Bool) :
    List SetupEvent × Option SetupError :=
  let c := initPaths env
  let checked := [SetupEvent.runVersion c.ffmpegPath]
  if CheckFFmpegInstalled env c then
    (checked ++ (if hasCallback then [.callback "FFmpeg 已就绪" 100] else []), none)
  else
    match getPlatformInfo env with
    | .error e => (checked, some e)
    | .ok info =>
      let execDir := executableDir env
      let platform := env.GOOS ++ "-" ++ env.GOARCH
      let targetDir := Join [execDir, "resources", "ffmpeg", platform]
      if !env.mkdirAllOk targetDir then (checked ++ [.mkdirAll targetDir], some .mkdirFailed)
      else
        let ffmpegPath := Join [targetDir, "ffmpeg" ++ info.ext]
        let t1 := checked ++ [.mkdirAll targetDir] ++
          (if hasCallback then [.callback "正在下载 ffmpeg..." 10] else [])
        let d1 := downloadAndExtract net info.ffmpegURL ffmpegPath true
        let t2 := t1 ++ d1.1.flatMap (liftDl "正在下载 ffmpeg..." 10 hasCallback)
        match d1.2 with
        | some e => (t2, some (.ffmpegDownload e))
        | none =>
          let ffprobePath := Join [targetDir, "ffprobe" ++ info.ext]
          let t3 := t2 ++ (if hasCallback then [.callback "正在下载 ffprobe..." 55] else [])
          let d2 := downloadAndExtract net info.ffprobeURL ffprobePath true
          let t4 := t3 ++ d2.1.flatMap (liftDl "正在下载 ffprobe..." 55 hasCallback)
          match d2.2 with
          | some e => (t4, some (.ffprobeDownload e))
          | none =>
            let t5 := t4 ++
              (if env.GOOS != "windows" then [.chmod ffmpegPath, .chmod ffprobePath] else [])
            (t5 ++ (if hasCallback then [.callback "FFmpeg 下载完成" 100] else []), none)

/-- The sample the specification assigns to a line: with the marker present,
its value parsed and a positive duration, `min(100, elapsed / 1e6 / d * 100)`. -/
def lineSample (duration : ℚ) (line : String) : Option ℚ :=
  match lineElapsed line with
  | some timeMs =>
    if 0 < duration then some (min 100 (timeMs / 1000000 / duration * 100)) else none
  | none => none

/-! ## app.go: the conversion entry point -/

/-- Models `ConvertResult`. -/
structure ConvertResult where
  Success : Bool
  Message : String
  OutputPath : String
  deriving DecidableEq, Repr

/-- The events `ConvertToWebM` emits to the presentation layer. -/
inductive AppEvent where
  | conversionStart (inputPath : String)
  | conversionProgress (p : ℚ)
  | conversionError (message : String)
  | conversionComplete (outputPath : String)
  deriving DecidableEq

/-- The output path `ConvertToWebM` generates. -/
def generateOutputPath (inputPath outputFolder : String) : String :=
  let baseName := TrimSuffix (Base inputPath) (Ext inputPath)
  let outputPath := Join [outputFolder, baseName ++ ".webm"]
  -- If output folder is empty, use the same folder as input
  if outputFolder == "" then Join [Dir inputPath, baseName ++ ".webm"] else outputPath

/-- What one call of `App.ConvertToWebM` does. -/
structure AppOutcome where
  /-- The returned `ConvertResult`. -/
  result : ConvertResult
  /-- The events emitted to the presentation layer, in order. -/
  emitted : List AppEvent
  /-- The conversion that was run, `none` when the call returned before it. -/
  conversion : Option ConvOutcome

/-- Models `App.ConvertToWebM`; `notExist` is `os.IsNotExist` of the error of
`os.Stat(inputPath)`. -/
def ConvertToWebM (notExist : Bool) (env : ConvEnv) (inputPath outputFolder : String)
    (quality : Int) : AppOutcome :=
  if inputPath == "" then ⟨⟨false, "请选择输入文件", ""⟩, [], none⟩
  else if notExist then ⟨⟨false, "输入文件不存在", ""⟩, [], none⟩
  else
    let outputPath := generateOutputPath inputPath outputFolder
    let out := ConvertMOVToVP9WebM env inputPath outputPath quality true
    let progress := (progressSamples out.trace).map AppEvent.conversionProgress
    match out.err with
    | some err =>
      ⟨⟨false, "转换失败: " ++ err.Error, ""⟩,
        [.conversionStart inputPath] ++ progress ++ [.conversionError err.Error], some out⟩
    | none =>
      ⟨⟨true, "转换完成", outputPath⟩,
        [.conversionStart inputPath] ++ progress ++ [.conversionComplete outputPath], some out⟩

/-! ## The resolution order of the specification -/

/-- The search order of the specification applied to one executable name
`bin` on its own: the command search, then `resources/ffmpeg/<os>-<arch>/`,
`resources/ffmpeg/` and the directory of the running executable, then the
bare name; the first location where `bin` itself is found wins. -/
def resolveTool (env : SysEnv) (bin : String) : String :=
  match env.lookPath bin with
  | some found => found
  | none =>
    let execDir := executableDir env
    if env.statOk (Join [execDir, "resources", "ffmpeg", getPlatformDir env, bin]) then
      Join [execDir, "resources", "ffmpeg", getPlatformDir env, bin]
    else if env.statOk (Join [execDir, "resources", "ffmpeg", bin]) then
      Join [execDir, "resources", "ffmpeg", bin]
    else if env.statOk (Join [execDir, bin]) then Join [execDir, bin]
    else bin

/-! ## Example environments -/

/-- A macOS machine with both tools on the command search path, where the
transcoder answers `-version` and the prober does not. -/
def brokenProberEnv : SysEnv where
  GOOS := "darwin"
  GOARCH := "arm64"
  lookPath := fun name =>
    if name == "ffmpeg" then some "/usr/local/bin/ffmpeg"
    else if name == "ffprobe" then some "/usr/local/bin/ffprobe"
    else none
  lookPath_nonempty := by
    intro name found h
    simp only [] at h
    split_ifs at h
    · cases h; decide
    · cases h; decide
  executable := some "/Applications/es-tools/es-tools"
  statOk := fun _ => false
  versionOk := fun path => path == "/usr/local/bin/ffmpeg"
  mkdirAllOk := fun _ => true

/-- A Linux machine with the transcoder on the command search path and the
prober only beside the running executable. -/
def proberBesideAppEnv : SysEnv where
  GOOS := "linux"
  GOARCH := "amd64"
  lookPath := fun name => if name == "ffmpeg" then some "/usr/bin/ffmpeg" else none
  lookPath_nonempty := by
    intro name found h
    simp only [] at h
    split_ifs at h
    cases h; decide
  executable := some "/opt/es-tools/es-tools"
  statOk := fun path => path == "/opt/es-tools/ffprobe"
  versionOk := fun _ => true
  mkdirAllOk := fun _ => true

/-- A Linux machine with neither tool installed. -/
def bareLinuxEnv : SysEnv where
  GOOS := "linux"
  GOARCH := "amd64"
  lookPath := fun _ => none
  lookPath_nonempty := fun _ _ h => nomatch h
  executable := some "/opt/es-tools/es-tools"
  statOk := fun _ => false
  versionOk := fun _ => false
  mkdirAllOk := fun _ => true

/-- A macOS machine whose bundle holds the transcoder in the platform
directory, with the prober only on the command search path. -/
def bundledEnv : SysEnv where
  GOOS := "darwin"
  GOARCH := "arm64"
  lookPath := fun name => if name == "ffprobe" then some "/usr/local/bin/ffprobe" else none
  lookPath_nonempty := by
    intro name found h
    simp only [] at h
    split_ifs at h
    cases h; decide
  executable := some "/Applications/es-tools/es-tools"
  statOk := fun path => path == "/Applications/es-tools/resources/ffmpeg/darwin-arm64/ffmpeg"
  versionOk := fun _ => true
  mkdirAllOk := fun _ => true

/-- A Linux machine whose bundle holds the transcoder in the flat resources
directory. -/
def flatBundleEnv : SysEnv where
  GOOS := "linux"
  GOARCH := "amd64"
  lookPath := fun _ => none
  lookPath_nonempty := fun _ _ h => nomatch h
  executable := some "/opt/es-tools/bin/es-tools"
  statOk := fun path => path == "/opt/es-tools/bin/resources/ffmpeg/ffmpeg"
  versionOk := fun _ => true
  mkdirAllOk := fun _ => true

/-- A Windows build with the transcoder beside the running executable. -/
def coLocatedEnv : SysEnv where
  GOOS := "windows"
  GOARCH := "amd64"
  lookPath := fun _ => none
  lookPath_nonempty := fun _ _ h => nomatch h
  executable := some "/opt/es-tools/es-tools.exe"
  statOk := fun path => path == "/opt/es-tools/ffmpeg.exe"
  versionOk := fun _ => true
  mkdirAllOk := fun _ => true

/-- A run that prints no progress line and whose subprocess exits with status
zero. -/
def quietRun : ConvEnv where
  probe := some 10
  pipeErr := none
  startErr := none
  lines := []
  waitErr := none
  ctxErrAtWait := none

/-- A run with a probed duration of 10 s whose markers rise from 1 s to 5 s
and whose subprocess exits with status zero. -/
def risingRun : ConvEnv where
  probe := some 10
  pipeErr := none
  startErr := none
  lines := [(none, "out_time_ms=1000000"), (none, "out_time_ms=5000000")]
  waitErr := none
  ctxErrAtWait := none

/-- A run with a probed duration of 10 s whose markers fall from 5 s to 1 s
and whose subprocess exits with status zero. -/
def fallingRun : ConvEnv where
  probe := some 10
  pipeErr := none
  startErr := none
  lines := [(none, "out_time_ms=5000000"), (none, "out_time_ms=1000000")]
  waitErr := none
  ctxErrAtWait := none

/-- A network that answers every request with status 404. -/
def offlineNet : NetEnv where
  httpGet := fun _ => some ⟨404, 0, false, []⟩
  createOk := fun _ => true

/-- A stream object with the given `codec_type` and `pix_fmt`. -/
def streamOf (codecType pixFmt : String) : JObject := fun key =>
  if key == "codec_type" then .string codecType
  else if key == "pix_fmt" then .string pixFmt
  else .null

/-! ## Lemmas on the library functions -/

theorem extScan_spec (rev : List Char) : ∀ acc : List Char,
    extScan rev acc = [] ∨
      ∃ a rest, rev = a ++ '.' :: rest ∧ (∀ c ∈ a, isPathSeparator c = false) ∧
        extScan rev acc = '.' :: (a.reverse ++ acc) := by
  induction rev with
  | nil => intro acc; left; rfl
  | cons c rev ih =>
    intro acc
    unfold extScan
    by_cases hsep : isPathSeparator c = true
    · left; simp [hsep]
    · by_cases hdot : c = '.'
      · right
        refine ⟨[], rev, by simp [hdot], by simp, ?_⟩
        simp [hdot, isPathSeparator]
      · rcases ih (c :: acc) with h | ⟨a, rest, h1, h2, h3⟩
        · left; simp [hsep, hdot, h]
        · right
          refine ⟨c :: a, rest, by simp [h1], ?_, ?_⟩
          · intro x hx
            rcases List.mem_cons.1 hx with rfl | hx
            · simpa using hsep
            · exact h2 x hx
          · simp [hsep, hdot, h3]

theorem trimSuffix_append (s suffix : String)
    (h : ∃ pre : List Char, s.data = pre ++ suffix.data) :
    TrimSuffix s suffix ++ suffix = s := by
  obtain ⟨pre, hpre⟩ := h
  have hs : hasSuffixChars s.data suffix.data = true := by
    simp [hasSuffixChars, hpre]
  unfold TrimSuffix
  rw [if_pos hs]
  apply String.ext
  simp [hpre]

/-- The extension is always a suffix of the base name, so trimming it and
putting it back gives the base name again. -/
theorem base_eq_stem_append_ext (path : String) :
    TrimSuffix (Base path) (Ext path) ++ Ext path = Base path := by
  apply trimSuffix_append
  rcases extScan_spec path.data.reverse [] with h | ⟨a, rest, h1, h2, h3⟩
  · exact ⟨(Base path).data, by simp [Ext, h]⟩
  · have hne : path.data.isEmpty = false := by
      cases hp : path.data with
      | nil => simp [hp] at h1
      | cons c cs => rfl
    have hdrop : path.data.reverse.dropWhile isPathSeparator = path.data.reverse := by
      rw [h1]
      cases a with
      | nil => simp [List.dropWhile, isPathSeparator]
      | cons x xs =>
        have := h2 x (List.mem_cons_self _ _)
        simp [List.dropWhile, this]
    have htake : (path.data.reverse.takeWhile (fun x => !isPathSeparator x))
        = a ++ '.' :: rest.takeWhile (fun x => !isPathSeparator x) := by
      rw [h1, List.takeWhile_append_of_pos]
      · simp [List.takeWhile, isPathSeparator]
      · intro x hx; simp [h2 x hx]
    refine ⟨(rest.takeWhile (fun x => !isPathSeparator x)).reverse, ?_⟩
    simp [Base, hne, hdrop, htake, Ext, h3]

/-- Fuel beyond the length of the unread input does not change the result of
the cleaning loop: the fuel `cleanChars` passes is enough. -/
theorem cleanLoop_fuel (rooted : Bool) :
    ∀ (fuel fuel2 : Nat) (rest out : List Char) (dotdot : Nat),
      rest.length < fuel → rest.length < fuel2 →
      cleanLoop rooted fuel rest out dotdot = cleanLoop rooted fuel2 rest out dotdot := by
  intro fuel
  induction fuel with
  | zero => intro fuel2 rest out dotdot h; omega
  | succ fuel ih =>
    intro fuel2 rest out dotdot h1 h2
    cases fuel2 with
    | zero => omega
    | succ fuel2 =>
      cases rest with
      | nil => rfl
      | cons c rs =>
        simp only [List.length_cons] at h1 h2
        have htail : rs.tail.length ≤ rs.length := by simp
        unfold cleanLoop
        split_ifs with hsep
        all_goals first
          | exact ih _ _ _ _ (by omega) (by omega)
          | (have hdrop : ((c :: rs).dropWhile (fun x => !isPathSeparator x)).length
                ≤ rs.length := by
               have hc : isPathSeparator c = false := by simpa using hsep
               simp only [List.dropWhile_cons, hc, Bool.not_false, if_true]
               exact (List.dropWhile_sublist _).length_le
             exact ih _ _ _ _ (by omega) (by omega))

/-! ## The transcode session: quality and output path -/

theorem validateQuality_eq (q : Int) : validateQuality q = max 0 (min q 63) := by
  unfold validateQuality
  simp only []
  split_ifs <;> omega

theorem convert_args (env : ConvEnv) (i o : String) (q : Int) (cb : Bool) :
    (ConvertMOVToVP9WebMWithContext env i o q cb).args = ffmpegArgs i o (validateQuality q) := by
  unfold ConvertMOVToVP9WebMWithContext
  simp only []
  split
  · rfl
  · split
    · rfl
    · split
      · rfl
      · split
        · split <;> rfl
        · rfl

theorem convert_quality_indep (env : ConvEnv) (i o : String) (q q2 : Int) (cb : Bool) :
    (ConvertMOVToVP9WebMWithContext env i o q cb).err
        = (ConvertMOVToVP9WebMWithContext env i o q2 cb).err
    ∧ (ConvertMOVToVP9WebMWithContext env i o q cb).trace
        = (ConvertMOVToVP9WebMWithContext env i o q2 cb).trace := by
  unfold ConvertMOVToVP9WebMWithContext
  simp only []
  split
  · exact ⟨rfl, rfl⟩
  · split
    · exact ⟨rfl, rfl⟩
    · split
      · exact ⟨rfl, rfl⟩
      · split
        · split <;> exact ⟨rfl, rfl⟩
        · exact ⟨rfl, rfl⟩

/-- C1: for every integer quality `q` the argument list holds `-crf` followed
by the decimal rendering of `clamp(q, 0, 63)`, which is `0` below the range,
`63` above it and `q` inside it; the quality never changes the returned error
or the effects, so no value is rejected. -/
theorem crf_is_clamped_quality (env : ConvEnv) (inputPath outputPath : String) (q : Int)
    (hasCallback : Bool) :
    (ConvertMOVToVP9WebMWithContext env inputPath outputPath q hasCallback).args.get? 10
        = some "-crf"
    ∧ (ConvertMOVToVP9WebMWithContext env inputPath outputPath q hasCallback).args.get? 11
        = some (Itoa (max 0 (min q 63)))
    ∧ max 0 (min q 63) = (if q < 0 then 0 else if q > 63 then 63 else q)
    ∧ Itoa 0 = "0" ∧ Itoa 63 = "63"
    ∧ (ConvertMOVToVP9WebMWithContext env inputPath outputPath q hasCallback).err
        = (ConvertMOVToVP9WebMWithContext env inputPath outputPath 0 hasCallback).err
    ∧ (ConvertMOVToVP9WebMWithContext env inputPath outputPath q hasCallback).trace
        = (ConvertMOVToVP9WebMWithContext env inputPath outputPath 0 hasCallback).trace := by
  rw [convert_args, validateQuality_eq]
  refine ⟨rfl, rfl, ?_, by decide, by decide,
    (convert_quality_indep env inputPath outputPath q 0 hasCallback).1,
    (convert_quality_indep env inputPath outputPath q 0 hasCallback).2⟩
  split_ifs <;> omega

theorem ffmpegArgs_getLast (i o : String) (q : Int) : (ffmpegArgs i o q).getLast? = some o := by
  simp [ffmpegArgs]

theorem dropWhile_head_neg (p : Char → Bool) (l : List Char)
    (h : ∀ c, l.head? = some c → p c = false) : l.dropWhile p = l := by
  cases l with
  | nil => rfl
  | cons x xs =>
    have hx := h x rfl
    simp [List.dropWhile, hx]

theorem sep_false_of_ne (c : Char) (h : c ≠ '/') : isPathSeparator c = false := by
  simpa [isPathSeparator] using h

theorem base_of_file (dir file : List Char) (hne : file ≠ [])
    (hfile : ∀ c ∈ file, c ≠ '/') : Base ⟨dir ++ '/' :: file⟩ = ⟨file⟩ := by
  have hrev : (dir ++ '/' :: file).reverse = file.reverse ++ '/' :: dir.reverse := by simp
  have hdrop : (file.reverse ++ '/' :: dir.reverse).dropWhile isPathSeparator
      = file.reverse ++ '/' :: dir.reverse := by
    apply dropWhile_head_neg
    intro c hc
    cases hr : file.reverse with
    | nil => exact absurd (List.reverse_eq_nil_iff.1 hr) hne
    | cons x xs =>
      rw [hr] at hc
      simp only [List.cons_append, List.head?_cons, Option.some.injEq] at hc
      subst hc
      exact sep_false_of_ne _ (hfile _ (List.mem_reverse.1 (by rw [hr]; exact List.mem_cons_self _ _)))
  have htake : (file.reverse ++ '/' :: dir.reverse).takeWhile (fun x => !isPathSeparator x)
      = file.reverse := by
    rw [List.takeWhile_append_of_pos]
    · simp [List.takeWhile, isPathSeparator]
    · intro c hc
      simp [sep_false_of_ne c (hfile c (List.mem_reverse.1 hc))]
  have hempty : file.isEmpty = false := by
    cases file with
    | nil => exact absurd rfl hne
    | cons _ _ => rfl
  simp [Base, hrev, hdrop, htake, hempty]

theorem base_of_bare (file : List Char) (hne : file ≠ []) (hfile : ∀ c ∈ file, c ≠ '/') :
    Base ⟨file⟩ = ⟨file⟩ := by
  have hdrop : file.reverse.dropWhile isPathSeparator = file.reverse := by
    apply dropWhile_head_neg
    intro c hc
    have hmem : c ∈ file.reverse := by
      cases hr : file.reverse with
      | nil => rw [hr] at hc; cases hc
      | cons x xs =>
        rw [hr] at hc
        simp only [List.head?_cons, Option.some.injEq] at hc
        subst hc
        exact List.mem_cons_self _ _
    exact sep_false_of_ne _ (hfile _ (List.mem_reverse.1 hmem))
  have htake : file.reverse.takeWhile (fun x => !isPathSeparator x) = file.reverse := by
    rw [List.takeWhile_eq_self_iff]
    intro c hc
    simp [sep_false_of_ne c (hfile c (List.mem_reverse.1 hc))]
  have hempty : file.isEmpty = false := by
    cases file with
    | nil => exact absurd rfl hne
    | cons _ _ => rfl
  simp [Base, hdrop, htake, hempty]

theorem dir_of_file (dir file : List Char) (hfile : ∀ c ∈ file, c ≠ '/') :
    Dir ⟨dir ++ '/' :: file⟩ = ⟨cleanChars (dir ++ ['/'])⟩ := by
  have hrev : (dir ++ '/' :: file).reverse = file.reverse ++ '/' :: dir.reverse := by simp
  have hdrop : (file.reverse ++ '/' :: dir.reverse).dropWhile (fun x => !isPathSeparator x)
      = '/' :: dir.reverse := by
    rw [List.dropWhile_append_of_pos]
    · simp [List.dropWhile, isPathSeparator]
    · intro c hc
      simp [sep_false_of_ne c (hfile c (List.mem_reverse.1 hc))]
  simp [Dir, hrev, hdrop]

theorem dir_of_bare (file : List Char) (hfile : ∀ c ∈ file, c ≠ '/') : Dir ⟨file⟩ = "." := by
  have hdrop : file.reverse.dropWhile (fun x => !isPathSeparator x) = [] := by
    rw [List.dropWhile_eq_nil_iff]
    intro c hc
    simp [sep_false_of_ne c (hfile c (List.mem_reverse.1 hc))]
  simp only [Dir, hdrop]
  rfl

theorem extScan_of_run (rest : List Char) : ∀ (a acc : List Char),
    (∀ c ∈ a, c ≠ '/' ∧ c ≠ '.') → extScan (a ++ '.' :: rest) acc = '.' :: (a.reverse ++ acc) := by
  intro a
  induction a with
  | nil => intro acc _; simp [extScan, isPathSeparator]
  | cons x xs ih =>
    intro acc h
    have hx := h x (List.mem_cons_self _ _)
    have hsep : isPathSeparator x = false := sep_false_of_ne x hx.1
    simp only [List.cons_append, extScan, hsep, Bool.false_eq_true, if_false]
    have hdot : (x == '.') = false := by simpa using hx.2
    simp only [hdot, Bool.false_eq_true, if_false]
    have := ih (x :: acc) (fun c hc => h c (List.mem_cons_of_mem _ hc))
    simpa using this

theorem ext_of_suffix (pre e : List Char) (he : ∀ c ∈ e, c ≠ '/' ∧ c ≠ '.') :
    Ext ⟨pre ++ '.' :: e⟩ = ⟨'.' :: e⟩ := by
  have hrev : (pre ++ '.' :: e).reverse = e.reverse ++ '.' :: pre.reverse := by simp
  have := extScan_of_run pre.reverse e.reverse []
    (fun c hc => he c (List.mem_reverse.1 hc))
  simp [Ext, hrev, this]

theorem trimSuffix_of_append (name suffix : List Char) :
    TrimSuffix ⟨name ++ suffix⟩ ⟨suffix⟩ = ⟨name⟩ := by
  have h := trimSuffix_append ⟨name ++ suffix⟩ ⟨suffix⟩ ⟨name, rfl⟩
  have hd := congrArg String.data h
  simp only [String.data_append] at hd
  exact String.ext (List.append_cancel_right hd)

/-- The output path for an input `dir/name.e`: the stem is `name`, and the
directory used with an empty output folder is the cleaned `dir/`. -/
theorem generateOutputPath_of_parts (dir name e outputFolder : String)
    (hname : ∀ c ∈ name.data, c ≠ '/') (he : ∀ c ∈ e.data, c ≠ '/' ∧ c ≠ '.') :
    generateOutputPath (dir ++ "/" ++ name ++ "." ++ e) outputFolder
      = (if outputFolder = "" then Join [Clean (dir ++ "/"), name ++ ".webm"]
         else Join [outputFolder, name ++ ".webm"]) := by
  have hin : dir ++ "/" ++ name ++ "." ++ e = ⟨dir.data ++ '/' :: (name.data ++ '.' :: e.data)⟩ := by
    apply String.ext
    simp [String.data_append]
  have hfile : ∀ c ∈ name.data ++ '.' :: e.data, c ≠ '/' := by
    intro c hc
    rcases List.mem_append.1 hc with h | h
    · exact hname c h
    · rcases List.mem_cons.1 h with rfl | h
      · decide
      · exact (he c h).1
  have hbase := base_of_file dir.data (name.data ++ '.' :: e.data) (by simp) hfile
  have hdir := dir_of_file dir.data (name.data ++ '.' :: e.data) hfile
  have hext : Ext ⟨dir.data ++ '/' :: (name.data ++ '.' :: e.data)⟩ = ⟨'.' :: e.data⟩ := by
    have := ext_of_suffix (dir.data ++ '/' :: name.data) e.data he
    simpa using this
  have hstem : TrimSuffix ⟨name.data ++ '.' :: e.data⟩ ⟨'.' :: e.data⟩ = name :=
    trimSuffix_of_append name.data ('.' :: e.data)
  have hclean : (⟨cleanChars (dir.data ++ ['/'])⟩ : String) = Clean (dir ++ "/") := by
    simp [Clean, String.data_append]
  simp only [generateOutputPath, hin, hbase, hdir, hext, hstem, hclean]
  by_cases ho : outputFolder = "" <;> simp [ho]

/-- The output path for an input `name.e` without a directory. -/
theorem generateOutputPath_of_bare (name e outputFolder : String)
    (hname : ∀ c ∈ name.data, c ≠ '/') (he : ∀ c ∈ e.data, c ≠ '/' ∧ c ≠ '.') :
    generateOutputPath (name ++ "." ++ e) outputFolder
      = (if outputFolder = "" then Join [".", name ++ ".webm"]
         else Join [outputFolder, name ++ ".webm"]) := by
  have hin : name ++ "." ++ e = ⟨name.data ++ '.' :: e.data⟩ := by
    apply String.ext
    simp [String.data_append]
  have hfile : ∀ c ∈ name.data ++ '.' :: e.data, c ≠ '/' := by
    intro c hc
    rcases List.mem_append.1 hc with h | h
    · exact hname c h
    · rcases List.mem_cons.1 h with rfl | h
      · decide
      · exact (he c h).1
  have hbase := base_of_bare (name.data ++ '.' :: e.data) (by simp) hfile
  have hdir := dir_of_bare (name.data ++ '.' :: e.data) hfile
  have hext : Ext ⟨name.data ++ '.' :: e.data⟩ = ⟨'.' :: e.data⟩ :=
    ext_of_suffix name.data e.data he
  have hstem : TrimSuffix ⟨name.data ++ '.' :: e.data⟩ ⟨'.' :: e.data⟩ = name :=
    trimSuffix_of_append name.data ('.' :: e.data)
  simp only [generateOutputPath, hin, hbase, hdir, hext, hstem]
  by_cases ho : outputFolder = "" <;> simp [ho]

theorem convertToWebM_conversion (env : ConvEnv) (inputPath outputFolder : String)
    (quality : Int) (hne : inputPath ≠ "") :
    ∃ out, (ConvertToWebM false env inputPath outputFolder quality).conversion = some out
      ∧ out.args.getLast? = some (generateOutputPath inputPath outputFolder)
      ∧ ((ConvertToWebM false env inputPath outputFolder quality).result.Success = true ↔
          out.err = none)
      ∧ ((ConvertToWebM false env inputPath outputFolder quality).result.Success = true →
          (ConvertToWebM false env inputPath outputFolder quality).result.OutputPath
            = generateOutputPath inputPath outputFolder) := by
  have hb : (inputPath == "") = false := by simpa using hne
  unfold ConvertToWebM
  simp only [hb, Bool.false_eq_true, if_false]
  cases herr : (ConvertMOVToVP9WebM env inputPath
      (generateOutputPath inputPath outputFolder) quality true).err with
  | some e =>
    refine ⟨_, rfl, ?_, ?_, ?_⟩
    · simp only [ConvertMOVToVP9WebM, convert_args, ffmpegArgs_getLast]
    · simp [herr]
    · simp
  | none =>
    refine ⟨_, rfl, ?_, ?_, ?_⟩
    · simp only [ConvertMOVToVP9WebM, convert_args, ffmpegArgs_getLast]
    · simp [herr]
    · intro _; rfl

/-- C2: for a non-empty input path that exists, `ConvertToWebM` runs the
conversion with the output path `Join(Dir(input), stem + ".webm")` when the
output folder is empty and `Join(outputFolder, stem + ".webm")` otherwise,
where `stem` is `Base(input)` without its extension `Ext(input)`; a successful
result carries exactly that path. For an input `dir/name.e` the stem is
`name` and the directory is the cleaned `dir/`; for an input `name.e` the
directory is `.`. Six inputs are evaluated, among them `clip.mov` with an
empty folder, which gives `clip.webm`. -/
theorem output_path_rule (env : ConvEnv) (inputPath outputFolder : String) (quality : Int)
    (hne : inputPath ≠ "") :
    (∃ out, (ConvertToWebM false env inputPath outputFolder quality).conversion = some out
      ∧ out.args.getLast? = some
          (if outputFolder = "" then
            Join [Dir inputPath, TrimSuffix (Base inputPath) (Ext inputPath) ++ ".webm"]
          else Join [outputFolder, TrimSuffix (Base inputPath) (Ext inputPath) ++ ".webm"])
      ∧ ((ConvertToWebM false env inputPath outputFolder quality).result.Success = true ↔
          out.err = none)
      ∧ ((ConvertToWebM false env inputPath outputFolder quality).result.Success = true →
          (ConvertToWebM false env inputPath outputFolder quality).result.OutputPath =
            (if outputFolder = "" then
              Join [Dir inputPath, TrimSuffix (Base inputPath) (Ext inputPath) ++ ".webm"]
            else Join [outputFolder, TrimSuffix (Base inputPath) (Ext inputPath) ++ ".webm"])))
    ∧ TrimSuffix (Base inputPath) (Ext inputPath) ++ Ext inputPath = Base inputPath
    ∧ Join [Dir "clip.mov", TrimSuffix (Base "clip.mov") (Ext "clip.mov") ++ ".webm"]
        = "clip.webm"
    ∧ (∀ dir name e : String, (∀ c ∈ name.data, c ≠ '/') →
        (∀ c ∈ e.data, c ≠ '/' ∧ c ≠ '.') → inputPath = dir ++ "/" ++ name ++ "." ++ e →
        ∃ out, (ConvertToWebM false env inputPath outputFolder quality).conversion = some out
          ∧ out.args.getLast? = some
              (if outputFolder = "" then Join [Clean (dir ++ "/"), name ++ ".webm"]
               else Join [outputFolder, name ++ ".webm"]))
    ∧ (∀ name e : String, (∀ c ∈ name.data, c ≠ '/') →
        (∀ c ∈ e.data, c ≠ '/' ∧ c ≠ '.') → inputPath = name ++ "." ++ e →
        ∃ out, (ConvertToWebM false env inputPath outputFolder quality).conversion = some out
          ∧ out.args.getLast? = some
              (if outputFolder = "" then Join [".", name ++ ".webm"]
               else Join [outputFolder, name ++ ".webm"]))
    ∧ (ConvertToWebM false quietRun "clip.mov" "" 20).result
        = ⟨true, "转换完成", "clip.webm"⟩
    ∧ (ConvertToWebM false quietRun "/a/b/clip.mov" "" 20).result
        = ⟨true, "转换完成", "/a/b/clip.webm"⟩
    ∧ (ConvertToWebM false quietRun "/a/b/clip.mov" "/out" 20).result
        = ⟨true, "转换完成", "/out/clip.webm"⟩
    ∧ (ConvertToWebM false quietRun "videos/take.1.mov" "out/" 20).result
        = ⟨true, "转换完成", "out/take.1.webm"⟩
    ∧ (ConvertToWebM false quietRun "/a/b.d/clip" "" 20).result
        = ⟨true, "转换完成", "/a/b.d/clip.webm"⟩
    ∧ (ConvertToWebM false quietRun "../in/clip.mov" "renders" 20).result
        = ⟨true, "转换完成", "renders/clip.webm"⟩ := by
  obtain ⟨out, h1, h2, h3, h4⟩ := convertToWebM_conversion env inputPath outputFolder quality hne
  have hgen : generateOutputPath inputPath outputFolder
      = (if outputFolder = "" then
          Join [Dir inputPath, TrimSuffix (Base inputPath) (Ext inputPath) ++ ".webm"]
        else Join [outputFolder, TrimSuffix (Base inputPath) (Ext inputPath) ++ ".webm"]) := by
    simp only [generateOutputPath]
    by_cases ho : outputFolder = "" <;> simp [ho]
  refine ⟨⟨out, h1, by rw [h2, hgen], h3, fun hs => by rw [h4 hs, hgen]⟩,
    base_eq_stem_append_ext inputPath, by decide, ?_, ?_,
    by decide, by decide, by decide, by decide, by decide, by decide⟩
  · intro dir name e hname he hin
    refine ⟨out, h1, ?_⟩
    rw [h2, hin, generateOutputPath_of_parts dir name e outputFolder hname he]
  · intro name e hname he hin
    refine ⟨out, h1, ?_⟩
    rw [h2, hin, generateOutputPath_of_bare name e outputFolder hname he]

/-- C2 at an input with a directory, `/a/b/clip.mov`: with the output folder
`/out` the conversion writes `/out/clip.webm`, with an empty folder
`/a/b/clip.webm`. -/
theorem output_path_rule_witness :
    ("/a/b/clip.mov" : String) ≠ ""
    ∧ (∃ out, (ConvertToWebM false quietRun "/a/b/clip.mov" "/out" 20).conversion = some out
        ∧ out.args.getLast? = some "/out/clip.webm")
    ∧ (∃ out, (ConvertToWebM false quietRun "/a/b/clip.mov" "" 20).conversion = some out
        ∧ out.args.getLast? = some "/a/b/clip.webm") := by
  have e1 : (if ("/out" : String) = "" then
        Join [Dir "/a/b/clip.mov",
          TrimSuffix (Base "/a/b/clip.mov") (Ext "/a/b/clip.mov") ++ ".webm"]
      else Join ["/out", TrimSuffix (Base "/a/b/clip.mov") (Ext "/a/b/clip.mov") ++ ".webm"])
      = "/out/clip.webm" := by decide
  have e2 : (if ("" : String) = "" then
        Join [Dir "/a/b/clip.mov",
          TrimSuffix (Base "/a/b/clip.mov") (Ext "/a/b/clip.mov") ++ ".webm"]
      else Join ["", TrimSuffix (Base "/a/b/clip.mov") (Ext "/a/b/clip.mov") ++ ".webm"])
      = "/a/b/clip.webm" := by decide
  refine ⟨by decide, ?_, ?_⟩
  · obtain ⟨out, h1, h2, _⟩ := (output_path_rule quietRun "/a/b/clip.mov" "/out" 20 (by decide)).1
    exact ⟨out, h1, by rw [h2, e1]⟩
  · obtain ⟨out, h1, h2, _⟩ := (output_path_rule quietRun "/a/b/clip.mov" "" 20 (by decide)).1
    exact ⟨out, h1, by rw [h2, e2]⟩

/-! ## The transcode session: progress samples -/

theorem progressSamples_append (a b : List ConvEvent) :
    progressSamples (a ++ b) = progressSamples a ++ progressSamples b := by
  induction a with
  | nil => rfl
  | cons x xs ih => cases x <;> simp [progressSamples, ih]

theorem progressOf_eq_min (t d : ℚ) : progressOf t d = min 100 (t / 1000000 / d * 100) := by
  unfold progressOf
  simp only []
  split_ifs with h
  · exact (min_eq_left (le_of_lt h)).symm
  · exact (min_eq_right (not_lt.1 h)).symm

theorem lineEvents_eq_sample (d : ℚ) (line : String) :
    lineEvents d true line = (lineSample d line).toList.map ConvEvent.progress := by
  unfold lineEvents lineSample lineElapsed
  cases findTimeSubmatch line.data with
  | none => rfl
  | some digits =>
    simp only []
    cases parseFloatDigits digits with
    | none => rfl
    | some t =>
      simp only []
      by_cases hd : 0 < d
      · simp [hd, progressOf_eq_min]
      · simp [hd]

theorem progressSamples_lineEvents (d : ℚ) (line : String) :
    progressSamples (lineEvents d true line) = (lineSample d line).toList := by
  rw [lineEvents_eq_sample]
  cases lineSample d line <;> rfl

theorem scanLines_none (d : ℚ) (cb : Bool) (o : String) :
    ∀ lines : List (Option CtxErr × String), (∀ x ∈ lines, x.1 = none) →
      scanLines d cb o lines = (lines.flatMap (fun x => lineEvents d cb x.2), none) := by
  intro lines
  induction lines with
  | nil => intro _; rfl
  | cons x xs ih =>
    intro h
    obtain ⟨f, l⟩ := x
    have hf : f = none := h (f, l) (List.mem_cons_self _ _)
    subst hf
    have := ih (fun y hy => h y (List.mem_cons_of_mem _ hy))
    simp [scanLines, this]

theorem scanLines_cancel (d : ℚ) (cb : Bool) (o : String) (e : CtxErr) (l : String)
    (post : List (Option CtxErr × String)) :
    ∀ pre : List (Option CtxErr × String), (∀ x ∈ pre, x.1 = none) →
      scanLines d cb o (pre ++ (some e, l) :: post)
        = (pre.flatMap (fun x => lineEvents d cb x.2) ++ [.kill, .remove o],
            some (.context e)) := by
  intro pre
  induction pre with
  | nil => intro _; rfl
  | cons x xs ih =>
    intro h
    obtain ⟨f, l2⟩ := x
    have hf : f = none := h (f, l2) (List.mem_cons_self _ _)
    subst hf
    have := ih (fun y hy => h y (List.mem_cons_of_mem _ hy))
    simp [scanLines, this]

/-- Every list of lines either has no cancellation flag, or splits at the
first one. -/
theorem lines_split (lines : List (Option CtxErr × String)) :
    (∀ x ∈ lines, x.1 = none) ∨
      ∃ pre e l post, lines = pre ++ (some e, l) :: post ∧ ∀ x ∈ pre, x.1 = none := by
  induction lines with
  | nil => left; simp
  | cons x xs ih =>
    obtain ⟨f, l⟩ := x
    cases f with
    | some e => right; exact ⟨[], e, l, xs, rfl, by simp⟩
    | none =>
      rcases ih with h | ⟨pre, e, l2, post, h1, h2⟩
      · left
        intro y hy
        rcases List.mem_cons.1 hy with rfl | hy
        · rfl
        · exact h y hy
      · right
        refine ⟨(none, l) :: pre, e, l2, post, by simp [h1], ?_⟩
        intro y hy
        rcases List.mem_cons.1 hy with rfl | hy
        · rfl
        · exact h2 y hy

theorem progressSamples_flatMap (d : ℚ) (lines : List (Option CtxErr × String)) :
    progressSamples (lines.flatMap (fun x => lineEvents d true x.2))
      = lines.filterMap (fun x => lineSample d x.2) := by
  induction lines with
  | nil => rfl
  | cons x xs ih =>
    rw [List.flatMap_cons, progressSamples_append, ih, progressSamples_lineEvents]
    cases h : lineSample d x.2 <;> simp [List.filterMap_cons, h]

theorem convert_pipe_failed (env : ConvEnv) (i o : String) (q : Int) (cb : Bool) (cause : String)
    (h : env.pipeErr = some cause) :
    (ConvertMOVToVP9WebMWithContext env i o q cb).trace = []
      ∧ (ConvertMOVToVP9WebMWithContext env i o q cb).err = some (.pipeFailed cause) := by
  simp [ConvertMOVToVP9WebMWithContext, h]

theorem convert_start_failed (env : ConvEnv) (i o : String) (q : Int) (cb : Bool)
    (cause : String) (hp : env.pipeErr = none) (h : env.startErr = some cause) :
    (ConvertMOVToVP9WebMWithContext env i o q cb).trace = []
      ∧ (ConvertMOVToVP9WebMWithContext env i o q cb).err = some (.startFailed cause) := by
  simp [ConvertMOVToVP9WebMWithContext, hp, h]

theorem convert_cancel_at_line (env : ConvEnv) (i o : String) (q : Int) (cb : Bool)
    (pre post : List (Option CtxErr × String)) (e : CtxErr) (l : String)
    (hp : env.pipeErr = none) (hs : env.startErr = none)
    (hl : env.lines = pre ++ (some e, l) :: post) (hpre : ∀ x ∈ pre, x.1 = none) :
    (ConvertMOVToVP9WebMWithContext env i o q cb).trace
        = pre.flatMap (fun x => lineEvents (probedDuration env) cb x.2) ++ [.kill, .remove o]
      ∧ (ConvertMOVToVP9WebMWithContext env i o q cb).err = some (.context e) := by
  simp [ConvertMOVToVP9WebMWithContext, hp, hs, hl, scanLines_cancel _ _ _ _ _ _ pre hpre]

theorem convert_cancel_at_wait (env : ConvEnv) (i o : String) (q : Int) (cb : Bool)
    (cause : String) (e : CtxErr)
    (hp : env.pipeErr = none) (hs : env.startErr = none)
    (hl : ∀ x ∈ env.lines, x.1 = none) (hw : env.waitErr = some cause)
    (hc : env.ctxErrAtWait = some e) :
    (ConvertMOVToVP9WebMWithContext env i o q cb).trace
        = env.lines.flatMap (fun x => lineEvents (probedDuration env) cb x.2) ++ [.remove o]
      ∧ (ConvertMOVToVP9WebMWithContext env i o q cb).err = some .cancelled := by
  simp [ConvertMOVToVP9WebMWithContext, hp, hs, hw, hc, scanLines_none _ _ _ env.lines hl]

theorem convert_failed (env : ConvEnv) (i o : String) (q : Int) (cb : Bool) (cause : String)
    (hp : env.pipeErr = none) (hs : env.startErr = none)
    (hl : ∀ x ∈ env.lines, x.1 = none) (hw : env.waitErr = some cause)
    (hc : env.ctxErrAtWait = none) :
    (ConvertMOVToVP9WebMWithContext env i o q cb).trace
        = env.lines.flatMap (fun x => lineEvents (probedDuration env) cb x.2)
      ∧ (ConvertMOVToVP9WebMWithContext env i o q cb).err = some (.conversionFailed cause) := by
  simp [ConvertMOVToVP9WebMWithContext, hp, hs, hw, hc, scanLines_none _ _ _ env.lines hl]

theorem convert_success (env : ConvEnv) (i o : String) (q : Int) (cb : Bool)
    (hp : env.pipeErr = none) (hs : env.startErr = none)
    (hl : ∀ x ∈ env.lines, x.1 = none) (hw : env.waitErr = none) :
    (ConvertMOVToVP9WebMWithContext env i o q cb).trace
        = env.lines.flatMap (fun x => lineEvents (probedDuration env) cb x.2)
            ++ (if cb then [.progress 100] else [])
      ∧ (ConvertMOVToVP9WebMWithContext env i o q cb).err = none := by
  simp [ConvertMOVToVP9WebMWithContext, hp, hs, hw, scanLines_none _ _ _ env.lines hl]

/-- The run returns `nil` exactly when nothing failed on the way and no
cancellation was seen: the pipe and the start succeed, no line check finds the
context done and `cmd.Wait` returns no error. -/
theorem convert_err_none_iff (env : ConvEnv) (i o : String) (q : Int) (cb : Bool) :
    (ConvertMOVToVP9WebMWithContext env i o q cb).err = none ↔
      env.pipeErr = none ∧ env.startErr = none ∧ (∀ x ∈ env.lines, x.1 = none)
        ∧ env.waitErr = none := by
  constructor
  · intro h
    cases hp : env.pipeErr with
    | some c => rw [(convert_pipe_failed env i o q cb c hp).2] at h; cases h
    | none =>
      cases hs : env.startErr with
      | some c => rw [(convert_start_failed env i o q cb c hp hs).2] at h; cases h
      | none =>
        rcases lines_split env.lines with hl | ⟨pre, e, l, post, h1, h2⟩
        · cases hw : env.waitErr with
          | none => exact ⟨rfl, rfl, hl, rfl⟩
          | some c =>
            cases hc : env.ctxErrAtWait with
            | none => rw [(convert_failed env i o q cb c hp hs hl hw hc).2] at h; cases h
            | some e => rw [(convert_cancel_at_wait env i o q cb c e hp hs hl hw hc).2] at h; cases h
        · rw [(convert_cancel_at_line env i o q cb pre post e l hp hs h1 h2).2] at h; cases h
  · rintro ⟨hp, hs, hl, hw⟩
    exact (convert_success env i o q cb hp hs hl hw).2

/-- The samples of a run are those of an initial segment of the lines, in the
order of the lines, followed by the final `100` exactly when the run returns
`nil`. -/
theorem convert_samples (env : ConvEnv) (i o : String) (q : Int) :
    ∃ pre post, env.lines = pre ++ post
      ∧ ((ConvertMOVToVP9WebMWithContext env i o q true).err = none → post = [])
      ∧ progressSamples (ConvertMOVToVP9WebMWithContext env i o q true).trace
          = pre.filterMap (fun x => lineSample (probedDuration env) x.2)
            ++ (if (ConvertMOVToVP9WebMWithContext env i o q true).err = none
                then [100] else []) := by
  cases hp : env.pipeErr with
  | some c =>
    obtain ⟨h1, h2⟩ := convert_pipe_failed env i o q true c hp
    exact ⟨[], env.lines, rfl, by simp [h2], by simp [h1, h2, progressSamples]⟩
  | none =>
    cases hs : env.startErr with
    | some c =>
      obtain ⟨h1, h2⟩ := convert_start_failed env i o q true c hp hs
      exact ⟨[], env.lines, rfl, by simp [h2], by simp [h1, h2, progressSamples]⟩
    | none =>
      rcases lines_split env.lines with hl | ⟨pre, e, l, post, hl1, hl2⟩
      · cases hw : env.waitErr with
        | none =>
          obtain ⟨h1, h2⟩ := convert_success env i o q true hp hs hl hw
          refine ⟨env.lines, [], by simp, fun _ => rfl, ?_⟩
          simp [h1, h2, progressSamples_append, progressSamples_flatMap, progressSamples]
        | some c =>
          cases hc : env.ctxErrAtWait with
          | none =>
            obtain ⟨h1, h2⟩ := convert_failed env i o q true c hp hs hl hw hc
            refine ⟨env.lines, [], by simp, fun _ => rfl, ?_⟩
            simp [h1, h2, progressSamples_flatMap]
          | some e =>
            obtain ⟨h1, h2⟩ := convert_cancel_at_wait env i o q true c e hp hs hl hw hc
            refine ⟨env.lines, [], by simp, fun _ => rfl, ?_⟩
            simp [h1, h2, progressSamples_append, progressSamples_flatMap, progressSamples]
      · obtain ⟨h1, h2⟩ := convert_cancel_at_line env i o q true pre post e l hp hs hl1 hl2
        refine ⟨pre, (some e, l) :: post, hl1, by simp [h2], ?_⟩
        simp [h1, h2, progressSamples_append, progressSamples_flatMap, progressSamples]

theorem lineElapsed_nonneg (line : String) (t : ℚ) (h : lineElapsed line = some t) : 0 ≤ t := by
  unfold lineElapsed at h
  cases hf : findTimeSubmatch line.data with
  | none => simp [hf] at h
  | some digits =>
    simp only [hf, parseFloatDigits] at h
    split_ifs at h
    cases h
    exact Nat.cast_nonneg _

theorem sample_mono (d : ℚ) (hd : 0 < d) (a b : ℚ) (h : a ≤ b) :
    min 100 (a / 1000000 / d * 100) ≤ min 100 (b / 1000000 / d * 100) := by
  apply min_le_min le_rfl
  have h1 : a / 1000000 ≤ b / 1000000 := div_le_div_of_nonneg_right h (by norm_num)
  have h2 : a / 1000000 / d ≤ b / 1000000 / d := div_le_div_of_nonneg_right h1 hd.le
  exact mul_le_mul_of_nonneg_right h2 (by norm_num)

theorem lineSample_le (d : ℚ) (line : String) (p : ℚ) (h : lineSample d line = some p) :
    0 ≤ p ∧ p ≤ 100 := by
  unfold lineSample at h
  cases he : lineElapsed line with
  | none => simp [he] at h
  | some t =>
    simp only [he] at h
    split_ifs at h with hd
    cases h
    refine ⟨le_min (by norm_num) ?_, min_le_left _ _⟩
    have ht := lineElapsed_nonneg line t he
    positivity

theorem samples_pairwise (d : ℚ) (lines : List (Option CtxErr × String))
    (h : (lines.filterMap (fun x => lineElapsed x.2)).Pairwise (· ≤ ·)) :
    (lines.filterMap (fun x => lineSample d x.2)).Pairwise (· ≤ ·) := by
  by_cases hd : 0 < d
  · have heq : lines.filterMap (fun x => lineSample d x.2)
        = (lines.filterMap (fun x => lineElapsed x.2)).map
            (fun t => min 100 (t / 1000000 / d * 100)) := by
      rw [List.map_filterMap]
      congr 1
      funext x
      simp only [lineSample]
      cases lineElapsed x.2 <;> simp [hd]
    rw [heq]
    exact List.Pairwise.map _ (fun a b hab => sample_mono d hd a b hab) h
  · have heq : lines.filterMap (fun x => lineSample d x.2) = [] := by
      rw [List.filterMap_eq_nil_iff]
      intro x _
      simp only [lineSample]
      cases lineElapsed x.2 <;> simp [hd]
    rw [heq]
    exact List.Pairwise.nil

theorem lineSample_marker_5s : lineSample 10 "out_time_ms=5000000" = some 50 := by
  have h1 : findTimeSubmatch "out_time_ms=5000000".data = some "5000000".data := by decide
  have h2 : digitsValue "5000000".data = 5000000 := by decide
  simp only [lineSample, lineElapsed, h1, parseFloatDigits, h2]
  norm_num

theorem lineSample_marker_1s : lineSample 10 "out_time_ms=1000000" = some 10 := by
  have h1 : findTimeSubmatch "out_time_ms=1000000".data = some "1000000".data := by decide
  have h2 : digitsValue "1000000".data = 1000000 := by decide
  simp only [lineSample, lineElapsed, h1, parseFloatDigits, h2]
  norm_num

theorem lineElapsed_marker_5s : lineElapsed "out_time_ms=5000000" = some 5000000 := by
  have h1 : findTimeSubmatch "out_time_ms=5000000".data = some "5000000".data := by decide
  have h2 : digitsValue "5000000".data = 5000000 := by decide
  simp only [lineElapsed, h1, parseFloatDigits, h2]
  norm_num

theorem lineElapsed_marker_1s : lineElapsed "out_time_ms=1000000" = some 1000000 := by
  have h1 : findTimeSubmatch "out_time_ms=1000000".data = some "1000000".data := by decide
  have h2 : digitsValue "1000000".data = 1000000 := by decide
  simp only [lineElapsed, h1, parseFloatDigits, h2]
  norm_num

theorem run_lines_5s_1s :
    ∀ x ∈ ([(none, "out_time_ms=5000000"), (none, "out_time_ms=1000000")] :
      List (Option CtxErr × String)), x.1 = none := by
  intro x hx
  simp only [List.mem_cons, List.mem_singleton, List.not_mem_nil, or_false] at hx
  rcases hx with rfl | rfl <;> rfl

theorem run_lines_1s_5s :
    ∀ x ∈ ([(none, "out_time_ms=1000000"), (none, "out_time_ms=5000000")] :
      List (Option CtxErr × String)), x.1 = none := by
  intro x hx
  simp only [List.mem_cons, List.mem_singleton, List.not_mem_nil, or_false] at hx
  rcases hx with rfl | rfl <;> rfl

/-- C3, as stated, fails: with a probed duration of 10 s and the two marker
lines `out_time_ms=5000000`, `out_time_ms=1000000`, a run that exits with
status zero delivers the samples 50, 10, 100, and 50, 10 is not
non-decreasing. -/
theorem progress_not_monotone :
    progressSamples (ConvertMOVToVP9WebMWithContext
        ⟨some 10, none, none,
          [(none, "out_time_ms=5000000"), (none, "out_time_ms=1000000")], none, none⟩
        "in.mov" "out.webm" 20 true).trace = [50, 10, 100]
    ∧ (ConvertMOVToVP9WebMWithContext
        ⟨some 10, none, none,
          [(none, "out_time_ms=5000000"), (none, "out_time_ms=1000000")], none, none⟩
        "in.mov" "out.webm" 20 true).err = none
    ∧ ¬ List.Pairwise (· ≤ ·) (progressSamples (ConvertMOVToVP9WebMWithContext
        ⟨some 10, none, none,
          [(none, "out_time_ms=5000000"), (none, "out_time_ms=1000000")], none, none⟩
        "in.mov" "out.webm" 20 true).trace).dropLast := by
  have h : progressSamples (ConvertMOVToVP9WebMWithContext
        ⟨some 10, none, none,
          [(none, "out_time_ms=5000000"), (none, "out_time_ms=1000000")], none, none⟩
        "in.mov" "out.webm" 20 true).trace = [50, 10, 100] := by
    rw [(convert_success _ _ _ _ true rfl rfl run_lines_5s_1s rfl).1, progressSamples_append,
      progressSamples_flatMap]
    simp only [List.filterMap_cons, probedDuration, lineSample_marker_5s, lineSample_marker_1s,
      List.filterMap_nil, if_true, progressSamples, List.cons_append, List.nil_append]
  refine ⟨h, (convert_success _ _ _ _ true rfl rfl run_lines_5s_1s rfl).2, ?_⟩
  rw [h]
  norm_num

/-- C3, amended: for every sequence of lines and every probed duration, the
samples are those of the lines read, in the order of the lines, followed by
the final 100 exactly when the run returns `nil`; when nothing failed and
`cmd.Wait` reports exit status zero the last sample delivered is exactly 100;
and the samples are non-decreasing whenever the elapsed values of the
successive marker lines are. On `risingRun` the samples are 10, 50, 100 and
on `fallingRun` they are 50, 10, 100. -/
theorem progress_samples_ordered (env : ConvEnv) (inputPath outputPath : String) (q : Int) :
    (∃ pre post, env.lines = pre ++ post
      ∧ ((ConvertMOVToVP9WebMWithContext env inputPath outputPath q true).err = none → post = [])
      ∧ progressSamples (ConvertMOVToVP9WebMWithContext env inputPath outputPath q true).trace
          = pre.filterMap (fun x => lineSample (probedDuration env) x.2)
            ++ (if (ConvertMOVToVP9WebMWithContext env inputPath outputPath q true).err = none
                then [100] else []))
    ∧ (env.pipeErr = none → env.startErr = none → (∀ x ∈ env.lines, x.1 = none) →
        env.waitErr = none →
        (progressSamples
          (ConvertMOVToVP9WebMWithContext env inputPath outputPath q true).trace).getLast?
            = some 100)
    ∧ ((env.lines.filterMap (fun x => lineElapsed x.2)).Pairwise (· ≤ ·) →
        (progressSamples
          (ConvertMOVToVP9WebMWithContext env inputPath outputPath q true).trace).Pairwise
            (· ≤ ·))
    ∧ progressSamples (ConvertMOVToVP9WebMWithContext risingRun "in.mov" "out.webm" 20 true).trace
        = [10, 50, 100]
    ∧ progressSamples (ConvertMOVToVP9WebMWithContext fallingRun "in.mov" "out.webm" 20 true).trace
        = [50, 10, 100] := by
  obtain ⟨pre, post, h1, h2, h3⟩ := convert_samples env inputPath outputPath q
  refine ⟨⟨pre, post, h1, h2, h3⟩, ?_, ?_, ?_, ?_⟩
  · intro hp hs hl hw
    have herr := (convert_err_none_iff env inputPath outputPath q true).2 ⟨hp, hs, hl, hw⟩
    rw [h3, if_pos herr]
    simp
  · intro hmono
    rw [h3, List.pairwise_append]
    refine ⟨?_, ?_, ?_⟩
    · have := samples_pairwise (probedDuration env) env.lines hmono
      rw [h1, List.filterMap_append, List.pairwise_append] at this
      exact this.1
    · split_ifs <;> simp
    · intro a ha b hb
      obtain ⟨x, _, hx⟩ := List.mem_filterMap.1 ha
      have hle := (lineSample_le _ _ _ hx).2
      split_ifs at hb
      · simp at hb; rw [hb]; exact hle
      · simp at hb
  · have c1 : findTimeSubmatch "out_time_ms=1000000".data = some "1000000".data := by decide
    have c5 : findTimeSubmatch "out_time_ms=5000000".data = some "5000000".data := by decide
    have v1 : digitsValue "1000000".data = 1000000 := by decide
    have v5 : digitsValue "5000000".data = 5000000 := by decide
    have m1 : lineSample (probedDuration risingRun) "out_time_ms=1000000" = some 10 := by
      simp only [lineSample, lineElapsed, c1, parseFloatDigits, v1, probedDuration, risingRun]
      norm_num
    have m5 : lineSample (probedDuration risingRun) "out_time_ms=5000000" = some 50 := by
      simp only [lineSample, lineElapsed, c5, parseFloatDigits, v5, probedDuration, risingRun]
      norm_num
    rw [(convert_success risingRun _ _ _ true rfl rfl run_lines_1s_5s rfl).1,
      progressSamples_append, progressSamples_flatMap]
    simp only [risingRun, List.filterMap_cons, List.filterMap_nil, if_true, progressSamples,
      List.cons_append, List.nil_append]
    simp only [risingRun] at m1 m5
    rw [m1, m5]
    rfl
  · have c1 : findTimeSubmatch "out_time_ms=1000000".data = some "1000000".data := by decide
    have c5 : findTimeSubmatch "out_time_ms=5000000".data = some "5000000".data := by decide
    have v1 : digitsValue "1000000".data = 1000000 := by decide
    have v5 : digitsValue "5000000".data = 5000000 := by decide
    have m1 : lineSample (probedDuration fallingRun) "out_time_ms=1000000" = some 10 := by
      simp only [lineSample, lineElapsed, c1, parseFloatDigits, v1, probedDuration, fallingRun]
      norm_num
    have m5 : lineSample (probedDuration fallingRun) "out_time_ms=5000000" = some 50 := by
      simp only [lineSample, lineElapsed, c5, parseFloatDigits, v5, probedDuration, fallingRun]
      norm_num
    rw [(convert_success fallingRun _ _ _ true rfl rfl run_lines_5s_1s rfl).1,
      progressSamples_append, progressSamples_flatMap]
    simp only [fallingRun, List.filterMap_cons, List.filterMap_nil, if_true, progressSamples,
      List.cons_append, List.nil_append]
    simp only [fallingRun] at m1 m5
    rw [m5, m1]
    rfl

/-- C3 (amended) at two runs: on `fallingRun`, whose markers go back, the
last sample is still 100; on `risingRun` the samples are non-decreasing. -/
theorem progress_samples_ordered_witness :
    ¬ (fallingRun.lines.filterMap (fun x => lineElapsed x.2)).Pairwise (· ≤ ·)
    ∧ (progressSamples
        (ConvertMOVToVP9WebMWithContext fallingRun "in.mov" "out.webm" 20 true).trace).getLast?
          = some 100
    ∧ (risingRun.lines.filterMap (fun x => lineElapsed x.2)).Pairwise (· ≤ ·)
    ∧ (progressSamples
        (ConvertMOVToVP9WebMWithContext risingRun "in.mov" "out.webm" 20 true).trace).Pairwise
          (· ≤ ·) := by
  have hf : ¬ (fallingRun.lines.filterMap (fun x => lineElapsed x.2)).Pairwise (· ≤ ·) := by
    simp only [fallingRun, List.filterMap_cons, lineElapsed_marker_1s, lineElapsed_marker_5s,
      List.filterMap_nil]
    norm_num
  have hr : (risingRun.lines.filterMap (fun x => lineElapsed x.2)).Pairwise (· ≤ ·) := by
    simp only [risingRun, List.filterMap_cons, lineElapsed_marker_1s, lineElapsed_marker_5s,
      List.filterMap_nil]
    norm_num
  exact ⟨hf,
    (progress_samples_ordered fallingRun "in.mov" "out.webm" 20).2.1 rfl rfl
      run_lines_5s_1s rfl,
    hr, (progress_samples_ordered risingRun "in.mov" "out.webm" 20).2.2.1 hr⟩

/-! ## The transcode session: which lines yield a sample -/

theorem matchMarkerAt_some (s digits : List Char) (h : matchMarkerAt s = some digits) :
    ∃ post, s = timeMarker ++ digits ++ post ∧ digits ≠ [] ∧ ∀ c ∈ digits, c.isDigit = true := by
  unfold matchMarkerAt at h
  split_ifs at h with hpre
  simp only [] at h
  split_ifs at h with hempty
  simp only [Option.some.injEq] at h
  obtain ⟨rest, hrest⟩ := List.isPrefixOf_iff_prefix.1 hpre
  refine ⟨(s.drop timeMarker.length).dropWhile Char.isDigit, ?_, ?_, ?_⟩
  · rw [← h, List.append_assoc, List.takeWhile_append_dropWhile, ← hrest]
    simp
  · rw [← h]
    intro hnil
    exact hempty (by simp [hnil])
  · intro c hc
    rw [← h] at hc
    exact (List.mem_takeWhile_imp hc)

theorem matchMarkerAt_of_decomp (digits post : List Char) (hne : digits ≠ [])
    (hd : ∀ c ∈ digits, c.isDigit = true) :
    ∃ found, matchMarkerAt (timeMarker ++ digits ++ post) = some found := by
  unfold matchMarkerAt
  have hpre : timeMarker.isPrefixOf (timeMarker ++ digits ++ post) = true := by
    rw [List.isPrefixOf_iff_prefix, List.append_assoc]
    exact List.prefix_append _ _
  rw [if_pos hpre]
  have hdrop : (timeMarker ++ digits ++ post).drop timeMarker.length = digits ++ post := by
    rw [List.append_assoc, List.drop_left]
  simp only [hdrop]
  cases digits with
  | nil => exact absurd rfl hne
  | cons c cs =>
    have hc : c.isDigit = true := hd c (List.mem_cons_self _ _)
    simp [List.takeWhile, hc]

theorem findTimeSubmatch_some_iff (s : List Char) :
    (∃ digits, findTimeSubmatch s = some digits) ↔
      ∃ pre digits post, s = pre ++ timeMarker ++ digits ++ post ∧ digits ≠ []
        ∧ ∀ c ∈ digits, c.isDigit = true := by
  constructor
  · induction s with
    | nil => rintro ⟨d, hd⟩; simp [findTimeSubmatch] at hd
    | cons c cs ih =>
      rintro ⟨d, hd⟩
      unfold findTimeSubmatch at hd
      cases hm : matchMarkerAt (c :: cs) with
      | some found =>
        obtain ⟨post, h1, h2, h3⟩ := matchMarkerAt_some _ _ hm
        exact ⟨[], found, post, by simpa using h1, h2, h3⟩
      | none =>
        simp only [hm] at hd
        obtain ⟨pre, digits, post, h1, h2, h3⟩ := ih ⟨d, hd⟩
        exact ⟨c :: pre, digits, post, by simp [h1], h2, h3⟩
  · rintro ⟨pre, digits, post, h1, h2, h3⟩
    subst h1
    induction pre with
    | nil =>
      obtain ⟨found, hf⟩ := matchMarkerAt_of_decomp digits post h2 h3
      have hcons : ∃ c cs, ([] : List Char) ++ timeMarker ++ digits ++ post = c :: cs := by
        simp [timeMarker]
      obtain ⟨c, cs, hcs⟩ := hcons
      rw [hcs]
      unfold findTimeSubmatch
      rw [← hcs]
      simp only [List.nil_append] at hf ⊢
      rw [hf]
      exact ⟨found, rfl⟩
    | cons c pre ih =>
      simp only [List.cons_append]
      unfold findTimeSubmatch
      cases hm : matchMarkerAt (c :: (pre ++ timeMarker ++ digits ++ post)) with
      | some found => exact ⟨found, rfl⟩
      | none => simpa only [List.append_assoc] using ih

theorem digitsValue_foldl (f : Char → Nat) (digits : List Char) : ∀ acc : Nat,
    digits.foldl (fun acc c => 10 * acc + f c) acc
      = Nat.ofDigits 10 ((digits.map f).reverse) + 10 ^ digits.length * acc := by
  induction digits with
  | nil => intro acc; simp
  | cons c cs ih =>
    intro acc
    rw [List.foldl_cons, ih, List.map_cons, List.reverse_cons, Nat.ofDigits_append,
      Nat.ofDigits_singleton, List.length_reverse, List.length_map, List.length_cons]
    ring

/-- The value of a digit string is the base-10 number its digits denote, most
significant digit first. -/
theorem digitsValue_eq_ofDigits (digits : List Char) :
    digitsValue digits = Nat.ofDigits 10 ((digits.map (fun c => c.toNat - 48)).reverse) := by
  have h := digitsValue_foldl (fun c => c.toNat - 48) digits 0
  simp only [mul_zero, add_zero] at h
  exact h

theorem parseFloatDigits_eq_some_iff (digits : List Char) (t : ℚ) :
    parseFloatDigits digits = some t ↔
      (Nat.ofDigits 10 ((digits.map (fun c => c.toNat - 48)).reverse) : ℕ) < 2 ^ 1024 - 2 ^ 970
        ∧ t = ((Nat.ofDigits 10 ((digits.map (fun c => c.toNat - 48)).reverse) : ℕ) : ℚ) := by
  unfold parseFloatDigits
  rw [digitsValue_eq_ofDigits]
  split_ifs with h
  · simp only [Option.some.injEq, h, true_and]
    exact eq_comm
  · constructor
    · intro hn; cases hn
    · rintro ⟨hlt, _⟩; exact absurd hlt h

theorem head_dropWhile_not (p : Char → Bool) (l : List Char) (c : Char)
    (h : (l.dropWhile p).head? = some c) : p c = false := by
  induction l with
  | nil => simp at h
  | cons x xs ih =>
    by_cases hx : p x = true
    · rw [List.dropWhile_cons_of_pos hx] at h
      exact ih h
    · rw [List.dropWhile_cons_of_neg hx] at h
      simp only [List.head?_cons, Option.some.injEq] at h
      rw [← h]
      simpa using hx

theorem takeWhile_run (p : Char → Bool) (a b : List Char) (ha : ∀ c ∈ a, p c = true)
    (hb : ∀ c, b.head? = some c → p c = false) : (a ++ b).takeWhile p = a := by
  induction a with
  | nil =>
    cases b with
    | nil => rfl
    | cons x xs =>
      have := hb x rfl
      simp [List.takeWhile, this]
  | cons x xs ih =>
    have hx := ha x (List.mem_cons_self _ _)
    simp only [List.cons_append, List.takeWhile_cons, hx, if_true]
    rw [ih (fun c hc => ha c (List.mem_cons_of_mem _ hc))]

theorem matchMarkerAt_maximal (s digits : List Char) (h : matchMarkerAt s = some digits) :
    ∃ post, s = timeMarker ++ digits ++ post ∧ digits ≠ []
      ∧ (∀ c ∈ digits, c.isDigit = true)
      ∧ (∀ c, post.head? = some c → c.isDigit = false) := by
  unfold matchMarkerAt at h
  split_ifs at h with hpre
  simp only [] at h
  split_ifs at h with hempty
  simp only [Option.some.injEq] at h
  obtain ⟨rest, hrest⟩ := List.isPrefixOf_iff_prefix.1 hpre
  refine ⟨(s.drop timeMarker.length).dropWhile Char.isDigit, ?_, ?_, ?_, ?_⟩
  · rw [← h, List.append_assoc, List.takeWhile_append_dropWhile, ← hrest]
    simp
  · rw [← h]
    intro hnil
    exact hempty (by simp [hnil])
  · intro c hc
    rw [← h] at hc
    exact (List.mem_takeWhile_imp hc)
  · intro c hc
    exact head_dropWhile_not _ _ c hc

/-- The capture of the pattern on a line: the digits follow the leftmost
marker that has a digit after it, and they are the whole run of digits
there. -/
theorem findTimeSubmatch_leftmost (s : List Char) : ∀ digits,
    findTimeSubmatch s = some digits →
      ∃ pre post, s = pre ++ timeMarker ++ digits ++ post ∧ digits ≠ []
        ∧ (∀ c ∈ digits, c.isDigit = true)
        ∧ (∀ c, post.head? = some c → c.isDigit = false)
        ∧ (∀ pre2 digits2 post2, s = pre2 ++ timeMarker ++ digits2 ++ post2 → digits2 ≠ [] →
            (∀ c ∈ digits2, c.isDigit = true) → pre.length ≤ pre2.length) := by
  induction s with
  | nil => intro digits h; simp [findTimeSubmatch] at h
  | cons c cs ih =>
    intro digits h
    unfold findTimeSubmatch at h
    cases hm : matchMarkerAt (c :: cs) with
    | some found =>
      simp only [hm, Option.some.injEq] at h
      subst h
      obtain ⟨post, h1, h2, h3, h4⟩ := matchMarkerAt_maximal _ _ hm
      exact ⟨[], post, by simpa using h1, h2, h3, h4, fun _ _ _ _ _ _ => Nat.zero_le _⟩
    | none =>
      simp only [hm] at h
      obtain ⟨pre, post, h1, h2, h3, h4, h5⟩ := ih digits h
      refine ⟨c :: pre, post, by simp [h1], h2, h3, h4, ?_⟩
      intro pre2 digits2 post2 hs hne hd
      cases pre2 with
      | nil =>
        obtain ⟨found, hf⟩ := matchMarkerAt_of_decomp digits2 post2 hne hd
        simp only [List.nil_append] at hs
        rw [← hs, hm] at hf
        cases hf
      | cons x xs =>
        simp only [List.cons_append, List.cons.injEq] at hs
        have := h5 xs digits2 post2 (by simpa using hs.2) hne hd
        simp only [List.length_cons]
        omega

theorem findTimeSubmatch_eq_some_iff (s digits : List Char) :
    findTimeSubmatch s = some digits ↔
      ∃ pre post, s = pre ++ timeMarker ++ digits ++ post ∧ digits ≠ []
        ∧ (∀ c ∈ digits, c.isDigit = true)
        ∧ (∀ c, post.head? = some c → c.isDigit = false)
        ∧ (∀ pre2 digits2 post2, s = pre2 ++ timeMarker ++ digits2 ++ post2 → digits2 ≠ [] →
            (∀ c ∈ digits2, c.isDigit = true) → pre.length ≤ pre2.length) := by
  constructor
  · exact findTimeSubmatch_leftmost s digits
  · rintro ⟨pre, post, h1, h2, h3, h4, h5⟩
    obtain ⟨digits0, h0⟩ := (findTimeSubmatch_some_iff s).2 ⟨pre, digits, post, h1, h2, h3⟩
    obtain ⟨pre0, post0, g1, g2, g3, g4, g5⟩ := findTimeSubmatch_leftmost s digits0 h0
    have hlen : pre.length = pre0.length :=
      le_antisymm (h5 pre0 digits0 post0 g1 g2 g3) (g5 pre digits post h1 h2 h3)
    have heq : pre ++ (timeMarker ++ (digits ++ post))
        = pre0 ++ (timeMarker ++ (digits0 ++ post0)) := by
      simp only [← List.append_assoc]
      rw [← h1, ← g1]
    have htail := (List.append_inj heq hlen).2
    have hrun : digits ++ post = digits0 ++ post0 := List.append_cancel_left htail
    have hd : digits = digits0 := by
      rw [← takeWhile_run Char.isDigit digits post h3 h4, hrun,
        takeWhile_run Char.isDigit digits0 post0 g3 g4]
    rw [hd]
    exact h0

theorem lineEvents_ne_nil_iff (d : ℚ) (line : String) :
    lineEvents d true line ≠ [] ↔ (∃ t, lineElapsed line = some t) ∧ 0 < d := by
  rw [lineEvents_eq_sample]
  unfold lineSample
  cases lineElapsed line with
  | none => simp
  | some t =>
    by_cases hd : 0 < d
    · simp [hd]
    · simp [hd]

theorem lineEvents_of_capture (d : ℚ) (line : String) (digits : List Char)
    (hf : findTimeSubmatch line.data = some digits)
    (hv : (Nat.ofDigits 10 ((digits.map (fun c => c.toNat - 48)).reverse) : ℕ) < 2 ^ 1024 - 2 ^ 970)
    (hd : 0 < d) :
    lineEvents d true line
        = [.progress (min 100
            (((Nat.ofDigits 10 ((digits.map (fun c => c.toNat - 48)).reverse) : ℕ) : ℚ)
              / 1000000 / d * 100))]
      ∧ 0 ≤ min 100
          (((Nat.ofDigits 10 ((digits.map (fun c => c.toNat - 48)).reverse) : ℕ) : ℚ)
            / 1000000 / d * 100)
      ∧ min 100
          (((Nat.ofDigits 10 ((digits.map (fun c => c.toNat - 48)).reverse) : ℕ) : ℚ)
            / 1000000 / d * 100) ≤ 100 := by
  have hpf := (parseFloatDigits_eq_some_iff digits _).2 ⟨hv, rfl⟩
  have he : lineElapsed line = some
      ((Nat.ofDigits 10 ((digits.map (fun c => c.toNat - 48)).reverse) : ℕ) : ℚ) := by
    simp [lineElapsed, hf, hpf]
  have hs : lineSample d line = some (min 100
      (((Nat.ofDigits 10 ((digits.map (fun c => c.toNat - 48)).reverse) : ℕ) : ℚ)
        / 1000000 / d * 100)) := by
    simp [lineSample, he, hd]
  exact ⟨by rw [lineEvents_eq_sample, hs]; rfl, lineSample_le _ _ _ hs⟩

theorem probedDuration_of_some (env : ConvEnv) (d : ℚ) (h : env.probe = some d) :
    probedDuration env = d := by
  simp [probedDuration, h]

theorem probedDuration_of_none (env : ConvEnv) (h : env.probe = none) :
    probedDuration env = 0 := by
  simp [probedDuration, h]

theorem lineEvents_zero (line : String) : lineEvents 0 true line = [] := by
  rw [lineEvents_eq_sample]
  unfold lineSample
  cases lineElapsed line <;> simp

theorem convert_samples_probe_failed (env : ConvEnv) (i o : String) (q : Int)
    (h : env.probe = none) :
    progressSamples (ConvertMOVToVP9WebMWithContext env i o q true).trace
      = (if (ConvertMOVToVP9WebMWithContext env i o q true).err = none then [100] else []) := by
  obtain ⟨pre, post, _, _, h3⟩ := convert_samples env i o q
  rw [h3, probedDuration_of_none env h]
  have : pre.filterMap (fun x => lineSample 0 x.2) = [] := by
    rw [List.filterMap_eq_nil_iff]
    intro x _
    simp only [lineSample]
    cases lineElapsed x.2 <;> simp
  rw [this, List.nil_append]

set_option maxRecDepth 100000 in
set_option exponentiation.threshold 2000 in
/-- C4: a line read while the run goes on (the context is not found done at
its check) yields a progress sample exactly when it contains the marker
`out_time_ms=` followed by digits whose value parses and the probe returned a
duration `d > 0`. The digits are the whole run after the leftmost such
marker, `elapsed` is the number they denote, and the sample is
`min(100, elapsed / 1000000 / d * 100)`, which lies in `[0, 100]`. A line
without the marker yields none, and no line does when the duration probe
failed (the run then delivers only the final 100). Five lines are
evaluated, the last with a value of 310 digits, which does not parse. -/
theorem line_sample_rule (env : ConvEnv) (line : String) :
    (lineEvents (probedDuration env) true line ≠ [] ↔
      ∃ digits d, findTimeSubmatch line.data = some digits
        ∧ (Nat.ofDigits 10 ((digits.map (fun c => c.toNat - 48)).reverse) : ℕ) < 2 ^ 1024 - 2 ^ 970
        ∧ env.probe = some d ∧ 0 < d)
    ∧ (∀ digits d, findTimeSubmatch line.data = some digits →
        (Nat.ofDigits 10 ((digits.map (fun c => c.toNat - 48)).reverse) : ℕ) < 2 ^ 1024 - 2 ^ 970 →
        env.probe = some d → 0 < d →
        lineEvents (probedDuration env) true line
            = [.progress (min 100
                (((Nat.ofDigits 10 ((digits.map (fun c => c.toNat - 48)).reverse) : ℕ) : ℚ)
                  / 1000000 / d * 100))]
          ∧ 0 ≤ min 100
              (((Nat.ofDigits 10 ((digits.map (fun c => c.toNat - 48)).reverse) : ℕ) : ℚ)
                / 1000000 / d * 100)
          ∧ min 100
              (((Nat.ofDigits 10 ((digits.map (fun c => c.toNat - 48)).reverse) : ℕ) : ℚ)
                / 1000000 / d * 100) ≤ 100)
    ∧ (∀ digits, findTimeSubmatch line.data = some digits ↔
        ∃ pre post, line.data = pre ++ "out_time_ms=".data ++ digits ++ post ∧ digits ≠ []
          ∧ (∀ c ∈ digits, c.isDigit = true)
          ∧ (∀ c, post.head? = some c → c.isDigit = false)
          ∧ (∀ pre2 digits2 post2,
              line.data = pre2 ++ "out_time_ms=".data ++ digits2 ++ post2 → digits2 ≠ [] →
              (∀ c ∈ digits2, c.isDigit = true) → pre.length ≤ pre2.length))
    ∧ ((¬ ∃ pre digits post, line.data = pre ++ "out_time_ms=".data ++ digits ++ post
          ∧ digits ≠ [] ∧ ∀ c ∈ digits, c.isDigit = true) →
        lineEvents (probedDuration env) true line = [])
    ∧ (env.probe = none → lineEvents (probedDuration env) true line = [])
    ∧ (env.probe = none → ∀ (inputPath outputPath : String) (q : Int),
        progressSamples (ConvertMOVToVP9WebMWithContext env inputPath outputPath q true).trace
          = (if (ConvertMOVToVP9WebMWithContext env inputPath outputPath q true).err = none
              then [100] else []))
    ∧ (∀ (outputPath : String) (rest : List (Option CtxErr × String)),
        (scanLines (probedDuration env) true outputPath ((none, line) :: rest)).1
          = lineEvents (probedDuration env) true line
            ++ (scanLines (probedDuration env) true outputPath rest).1)
    ∧ lineEvents (probedDuration ⟨some 10, none, none, [], none, none⟩) true
        "frame=7 out_time_ms=5000000us out_time_ms=9" = [.progress 50]
    ∧ lineEvents (probedDuration ⟨some 2, none, none, [], none, none⟩) true
        "out_time_ms=9000000" = [.progress 100]
    ∧ lineEvents (probedDuration ⟨some 10, none, none, [], none, none⟩) true
        "out_time_ms=N/A" = []
    ∧ lineEvents (probedDuration ⟨none, none, none, [], none, none⟩) true
        "out_time_ms=5000000" = []
    ∧ lineEvents (probedDuration ⟨some 10, none, none, [], none, none⟩) true
        ⟨"out_time_ms=".data ++ List.replicate 310 '9'⟩ = [] := by
  refine ⟨?_, ?_, fun digits => findTimeSubmatch_eq_some_iff line.data digits, ?_, ?_, ?_,
    fun _ _ => rfl, ?_, ?_, ?_, ?_, ?_⟩
  · rw [lineEvents_ne_nil_iff]
    constructor
    · rintro ⟨⟨t, ht⟩, hd⟩
      unfold lineElapsed at ht
      cases hf : findTimeSubmatch line.data with
      | none => simp [hf] at ht
      | some digits =>
        simp only [hf] at ht
        have hv := ((parseFloatDigits_eq_some_iff digits t).1 ht).1
        cases hp : env.probe with
        | none => rw [probedDuration_of_none env hp] at hd; exact absurd hd (lt_irrefl _)
        | some d =>
          rw [probedDuration_of_some env d hp] at hd
          exact ⟨digits, d, rfl, hv, rfl, hd⟩
    · rintro ⟨digits, d, hf, hv, hp, hd⟩
      refine ⟨⟨((Nat.ofDigits 10 ((digits.map (fun c => c.toNat - 48)).reverse) : ℕ) : ℚ), ?_⟩,
        by rw [probedDuration_of_some env d hp]; exact hd⟩
      simp only [lineElapsed, hf]
      exact (parseFloatDigits_eq_some_iff digits _).2 ⟨hv, rfl⟩
  · intro digits d hf hv hp hd
    rw [probedDuration_of_some env d hp]
    exact lineEvents_of_capture d line digits hf hv hd
  · intro hno
    have hf : findTimeSubmatch line.data = none := by
      cases hf : findTimeSubmatch line.data with
      | none => rfl
      | some digits => exact absurd ((findTimeSubmatch_some_iff line.data).1 ⟨digits, hf⟩) hno
    simp [lineEvents, hf]
  · intro hp
    rw [probedDuration_of_none env hp]
    exact lineEvents_zero line
  · intro hp inputPath outputPath q
    exact convert_samples_probe_failed env inputPath outputPath q hp
  · have h1 : findTimeSubmatch "frame=7 out_time_ms=5000000us out_time_ms=9".data
        = some "5000000".data := by decide
    have h2 : digitsValue "5000000".data = 5000000 := by decide
    simp only [lineEvents, h1, parseFloatDigits, h2, probedDuration, progressOf]
    norm_num
  · have h1 : findTimeSubmatch "out_time_ms=9000000".data = some "9000000".data := by decide
    have h2 : digitsValue "9000000".data = 9000000 := by decide
    simp only [lineEvents, h1, parseFloatDigits, h2, probedDuration, progressOf]
    norm_num
  · have h1 : findTimeSubmatch "out_time_ms=N/A".data = none := by decide
    simp [lineEvents, h1]
  · have h1 : findTimeSubmatch "out_time_ms=5000000".data = some "5000000".data := by decide
    have h2 : digitsValue "5000000".data = 5000000 := by decide
    simp only [lineEvents, h1, parseFloatDigits, h2, probedDuration]
    norm_num
  · have h1 : findTimeSubmatch ("out_time_ms=".data ++ List.replicate 310 '9')
        = some (List.replicate 310 '9') := by decide
    have h2 : parseFloatDigits (List.replicate 310 '9') = none := by decide
    simp only [lineEvents, h1, h2]

/-! ## The transcode session: cancellation -/

/-- C6: when the per-line check finds the context done after the lines `pre`,
or when `cmd.Wait` fails and the context is then found done, the trace is the
events of the lines processed before, followed by the kill (per-line check
only) and the removal of the output file, with no sample after that point and
no final 100; the returned error is the cancellation outcome, never the
conversion failure and never `nil`. -/
theorem cancel_outcome (env : ConvEnv) (inputPath outputPath : String) (q : Int) (cb : Bool)
    (hp : env.pipeErr = none) (hs : env.startErr = none) :
    (∀ pre post e l, env.lines = pre ++ (some e, l) :: post → (∀ x ∈ pre, x.1 = none) →
      (ConvertMOVToVP9WebMWithContext env inputPath outputPath q cb).trace
          = pre.flatMap (fun x => lineEvents (probedDuration env) cb x.2)
            ++ [.kill, .remove outputPath]
        ∧ progressSamples (ConvertMOVToVP9WebMWithContext env inputPath outputPath q cb).trace
          = progressSamples (pre.flatMap (fun x => lineEvents (probedDuration env) cb x.2))
        ∧ (ConvertMOVToVP9WebMWithContext env inputPath outputPath q cb).err
          = some (.context e))
    ∧ (∀ cause e, (∀ x ∈ env.lines, x.1 = none) → env.waitErr = some cause →
        env.ctxErrAtWait = some e →
      (ConvertMOVToVP9WebMWithContext env inputPath outputPath q cb).trace
          = env.lines.flatMap (fun x => lineEvents (probedDuration env) cb x.2)
            ++ [.remove outputPath]
        ∧ progressSamples (ConvertMOVToVP9WebMWithContext env inputPath outputPath q cb).trace
          = progressSamples (env.lines.flatMap (fun x => lineEvents (probedDuration env) cb x.2))
        ∧ (ConvertMOVToVP9WebMWithContext env inputPath outputPath q cb).err
          = some .cancelled)
    ∧ (((∃ pre post e l, env.lines = pre ++ (some e, l) :: post ∧ ∀ x ∈ pre, x.1 = none)
        ∨ ((∀ x ∈ env.lines, x.1 = none) ∧ env.waitErr.isSome ∧ env.ctxErrAtWait.isSome)) →
      (ConvertMOVToVP9WebMWithContext env inputPath outputPath q cb).trace.getLast?
          = some (.remove outputPath)
        ∧ (ConvertMOVToVP9WebMWithContext env inputPath outputPath q cb).err ≠ none
        ∧ (∀ cause, (ConvertMOVToVP9WebMWithContext env inputPath outputPath q cb).err
            ≠ some (.conversionFailed cause))
        ∧ ((∃ e, (ConvertMOVToVP9WebMWithContext env inputPath outputPath q cb).err
              = some (.context e))
          ∨ (ConvertMOVToVP9WebMWithContext env inputPath outputPath q cb).err
              = some .cancelled)) := by
  refine ⟨?_, ?_, ?_⟩
  · intro pre post e l hl hpre
    obtain ⟨h1, h2⟩ := convert_cancel_at_line env inputPath outputPath q cb pre post e l hp hs hl hpre
    refine ⟨h1, ?_, h2⟩
    rw [h1, progressSamples_append]
    simp [progressSamples]
  · intro cause e hl hw hc
    obtain ⟨h1, h2⟩ := convert_cancel_at_wait env inputPath outputPath q cb cause e hp hs hl hw hc
    refine ⟨h1, ?_, h2⟩
    rw [h1, progressSamples_append]
    simp [progressSamples]
  · rintro (⟨pre, post, e, l, hl, hpre⟩ | ⟨hl, hw, hc⟩)
    · obtain ⟨h1, h2⟩ :=
        convert_cancel_at_line env inputPath outputPath q cb pre post e l hp hs hl hpre
      rw [h1, h2]
      simp
    · obtain ⟨cause, hw⟩ := Option.isSome_iff_exists.1 hw
      obtain ⟨e, hc⟩ := Option.isSome_iff_exists.1 hc
      obtain ⟨h1, h2⟩ :=
        convert_cancel_at_wait env inputPath outputPath q cb cause e hp hs hl hw hc
      rw [h1, h2]
      simp

theorem lineEvents_marker_1s :
    lineEvents 10 true "out_time_ms=1000000" = [.progress 10] := by
  rw [lineEvents_eq_sample, lineSample_marker_1s]; rfl

theorem lineEvents_marker_5s :
    lineEvents 10 true "out_time_ms=5000000" = [.progress 50] := by
  rw [lineEvents_eq_sample, lineSample_marker_5s]; rfl

/-- The scenario of C6: the context is found done at the third line, after two
samples were delivered; and a run whose wait fails with the context done. -/
theorem cancel_outcome_witness :
    (ConvertMOVToVP9WebMWithContext
        ⟨some 10, none, none,
          [(none, "out_time_ms=1000000"), (none, "out_time_ms=5000000")]
            ++ (some .canceled, "out_time_ms=6000000") :: [(none, "out_time_ms=7000000")],
          none, none⟩
        "in.mov" "out.webm" 20 true).trace
      = [.progress 10, .progress 50, .kill, .remove "out.webm"]
    ∧ (ConvertMOVToVP9WebMWithContext
        ⟨some 10, none, none,
          [(none, "out_time_ms=1000000"), (none, "out_time_ms=5000000")]
            ++ (some .canceled, "out_time_ms=6000000") :: [(none, "out_time_ms=7000000")],
          none, none⟩
        "in.mov" "out.webm" 20 true).err = some (.context .canceled)
    ∧ (ConvertMOVToVP9WebMWithContext
        ⟨some 10, none, none,
          [(none, "out_time_ms=1000000"), (none, "out_time_ms=5000000")],
          some "signal: killed", some .canceled⟩
        "in.mov" "out.webm" 20 true).trace
      = [.progress 10, .progress 50, .remove "out.webm"]
    ∧ (ConvertMOVToVP9WebMWithContext
        ⟨some 10, none, none,
          [(none, "out_time_ms=1000000"), (none, "out_time_ms=5000000")],
          some "signal: killed", some .canceled⟩
        "in.mov" "out.webm" 20 true).err = some .cancelled := by
  have h1 := (cancel_outcome
    ⟨some 10, none, none,
      [(none, "out_time_ms=1000000"), (none, "out_time_ms=5000000")]
        ++ (some .canceled, "out_time_ms=6000000") :: [(none, "out_time_ms=7000000")],
      none, none⟩ "in.mov" "out.webm" 20 true rfl rfl).1
    [(none, "out_time_ms=1000000"), (none, "out_time_ms=5000000")]
    [(none, "out_time_ms=7000000")] .canceled "out_time_ms=6000000" rfl run_lines_1s_5s
  have h2 := (cancel_outcome
    ⟨some 10, none, none,
      [(none, "out_time_ms=1000000"), (none, "out_time_ms=5000000")],
      some "signal: killed", some .canceled⟩ "in.mov" "out.webm" 20 true rfl rfl).2.1
    "signal: killed" .canceled run_lines_1s_5s rfl rfl
  simp only [List.flatMap_cons, List.flatMap_nil, probedDuration, lineEvents_marker_1s,
    lineEvents_marker_5s, List.cons_append, List.nil_append, List.append_nil] at h1 h2
  exact ⟨h1.1, h1.2.2, h2.1, h2.2.2⟩

/-! ## The archive installer: progress estimates -/

/-- C5 fails on the code at a compressed length of 100 bytes whose stream
decompresses in chunks of 299 and 2 bytes: the clamp tests `progress > 100`
but assigns 99, so the estimates are 299/3 (above 99), then 99, then 100:
neither bounded by 99 before the end nor non-decreasing. -/
theorem download_estimates_dip :
    estimates (downloadAndExtract
        ⟨fun _ => some ⟨200, 100, true, [⟨299, .none, false⟩, ⟨2, .none, false⟩, ⟨0, .eof, false⟩]⟩,
          fun _ => true⟩
        "https://cdn.npmmirror.com/binaries/ffmpeg-static/b6.1.1/ffmpeg-darwin-arm64.gz"
        "ffmpeg" true).1 = [299 / 3, 99, 100]
    ∧ (downloadAndExtract
        ⟨fun _ => some ⟨200, 100, true, [⟨299, .none, false⟩, ⟨2, .none, false⟩, ⟨0, .eof, false⟩]⟩,
          fun _ => true⟩
        "https://cdn.npmmirror.com/binaries/ffmpeg-static/b6.1.1/ffmpeg-darwin-arm64.gz"
        "ffmpeg" true).2 = none
    ∧ ¬ ((299 : ℚ) / 3 ≤ 99)
    ∧ ¬ List.Pairwise (· ≤ ·) ([299 / 3, 99, 100] : List ℚ) := by
  have hw1 : wrapInt64 299 = 299 := by decide
  have hw2 : wrapInt64 301 = 301 := by decide
  have hw3 : wrapInt64 (100 * 3) = 300 := by decide
  have he1 : estimateOf 299 100 = 299 / 3 := by
    simp only [estimateOf, hw3]; norm_num
  have he2 : estimateOf 301 100 = 99 := by
    simp only [estimateOf, hw3]; norm_num
  refine ⟨?_, ?_, by norm_num, by norm_num⟩
  · simp [downloadAndExtract, copyLoop, hw1, hw2, he1, he2, estimates]
  · simp [downloadAndExtract, copyLoop]

/-! ## The ensure-ready orchestrator -/

theorem getPlatformInfo_unsupported (env : SysEnv)
    (h : env.GOOS ++ "-" ++ env.GOARCH ∉ ["windows-amd64", "darwin-amd64", "darwin-arm64"]) :
    getPlatformInfo env = .error (.unsupportedPlatform (env.GOOS ++ "-" ++ env.GOARCH)) := by
  simp only [List.mem_cons, List.mem_singleton, List.not_mem_nil, or_false, not_or] at h
  obtain ⟨h1, h2, h3⟩ := h
  have b1 : (env.GOOS ++ "-" ++ env.GOARCH == "windows-amd64") = false := by simpa using h1
  have b2 : (env.GOOS ++ "-" ++ env.GOARCH == "darwin-amd64") = false := by simpa using h2
  have b3 : (env.GOOS ++ "-" ++ env.GOARCH == "darwin-arm64") = false := by simpa using h3
  simp only [getPlatformInfo, platformMap, List.lookup, b1, b2, b3]

theorem getPlatformInfo_supported (env : SysEnv)
    (h : env.GOOS ++ "-" ++ env.GOARCH ∈ ["windows-amd64", "darwin-amd64", "darwin-arm64"]) :
    ∃ info, getPlatformInfo env = .ok info
      ∧ (env.GOOS ++ "-" ++ env.GOARCH, info) ∈ platformMap := by
  simp only [List.mem_cons, List.mem_singleton, List.not_mem_nil, or_false] at h
  rcases h with h | h | h
  · simp only [getPlatformInfo, h]
    exact ⟨_, rfl, by decide⟩
  · simp only [getPlatformInfo, h]
    exact ⟨_, rfl, by decide⟩
  · simp only [getPlatformInfo, h]
    exact ⟨_, rfl, by decide⟩

theorem ensure_ready_path (env : SysEnv) (net : NetEnv) (cb : Bool)
    (h : env.versionOk (initPaths env).ffmpegPath = true) :
    EnsureFFmpeg env net cb
      = ([.runVersion (initPaths env).ffmpegPath]
          ++ (if cb then [.callback "FFmpeg 已就绪" 100] else []), none) := by
  simp [EnsureFFmpeg, CheckFFmpegInstalled, h]

theorem ensure_unsupported_path (env : SysEnv) (net : NetEnv) (cb : Bool) (e : SetupError)
    (h : env.versionOk (initPaths env).ffmpegPath = false) (he : getPlatformInfo env = .error e) :
    EnsureFFmpeg env net cb = ([.runVersion (initPaths env).ffmpegPath], some e) := by
  simp [EnsureFFmpeg, CheckFFmpegInstalled, h, he]

theorem downloadAndExtract_head (net : NetEnv) (url path : String) (cb : Bool) :
    ∃ rest, (downloadAndExtract net url path cb).1 = .httpGet url :: rest := by
  unfold downloadAndExtract
  cases net.httpGet url with
  | none => exact ⟨_, rfl⟩
  | some resp =>
    simp only []
    split_ifs
    all_goals first
      | exact ⟨_, rfl⟩
      | (split <;> exact ⟨_, rfl⟩)

theorem ensure_install_path (env : SysEnv) (net : NetEnv) (cb : Bool) (info : platformInfo)
    (h : env.versionOk (initPaths env).ffmpegPath = false) (hi : getPlatformInfo env = .ok info) :
    (∃ rest, (EnsureFFmpeg env net cb).1
        = [.runVersion (initPaths env).ffmpegPath,
            .mkdirAll (Join [executableDir env, "resources", "ffmpeg",
              env.GOOS ++ "-" ++ env.GOARCH])] ++ rest)
    ∧ (env.mkdirAllOk (Join [executableDir env, "resources", "ffmpeg",
          env.GOOS ++ "-" ++ env.GOARCH]) = true →
        SetupEvent.httpGet info.ffmpegURL ∈ (EnsureFFmpeg env net cb).1) := by
  obtain ⟨r1, hr1⟩ := downloadAndExtract_head net info.ffmpegURL
    (Join [Join [executableDir env, "resources", "ffmpeg", env.GOOS ++ "-" ++ env.GOARCH],
      "ffmpeg" ++ info.ext]) true
  constructor
  · simp only [EnsureFFmpeg, CheckFFmpegInstalled, h, hi, Bool.false_eq_true, if_false]
    split_ifs
    all_goals first
      | exact ⟨_, by simp only [List.append_assoc, List.cons_append, List.nil_append]; rfl⟩
      | (split
         · exact ⟨_, by simp only [List.append_assoc, List.cons_append, List.nil_append]; rfl⟩
         · split <;>
             exact ⟨_, by simp only [List.append_assoc, List.cons_append, List.nil_append]; rfl⟩)
  · intro hm
    simp only [EnsureFFmpeg, CheckFFmpegInstalled, h, hi, hm, Bool.false_eq_true, if_false,
      Bool.not_true]
    split
    · simp [hr1, liftDl]
    · split
      · simp [hr1, liftDl]
      · simp [hr1, liftDl]

/-- C7, as stated, fails: on `brokenProberEnv` the prober fails its self-test,
yet `EnsureFFmpeg` takes the immediate-success path: the self-test of the
transcoder, one callback at 100, nothing else. -/
theorem ensure_ignores_prober :
    brokenProberEnv.versionOk (initPaths brokenProberEnv).ffprobePath = false
    ∧ EnsureFFmpeg brokenProberEnv offlineNet true
      = ([.runVersion "/usr/local/bin/ffmpeg", .callback "FFmpeg 已就绪" 100], none) := by
  have hp : initPaths brokenProberEnv = ⟨"/usr/local/bin/ffmpeg", "/usr/local/bin/ffprobe"⟩ := by
    decide
  refine ⟨by rw [hp]; decide, ?_⟩
  rw [ensure_ready_path brokenProberEnv offlineNet true (by rw [hp]; decide), hp]
  rfl

/-- C7, amended: `CheckFFmpegInstalled` tests the transcoder only. When the
transcoder passes its version self-test `EnsureFFmpeg` takes the
immediate-success path (the self-test, one callback at 100, no directory, no
request, `nil`); when it fails, `EnsureFFmpeg` determines the platform
artifact, returns its error on an unsupported platform, and otherwise creates
the target directory and, once that exists, requests the transcoder archive. -/
theorem ensure_ready_on_transcoder (env : SysEnv) (net : NetEnv) (cb : Bool) :
    CheckFFmpegInstalled env (initPaths env) = env.versionOk (initPaths env).ffmpegPath
    ∧ (env.versionOk (initPaths env).ffmpegPath = true →
        EnsureFFmpeg env net cb
          = ([.runVersion (initPaths env).ffmpegPath]
              ++ (if cb then [.callback "FFmpeg 已就绪" 100] else []), none))
    ∧ (env.versionOk (initPaths env).ffmpegPath = false →
        (∀ e, getPlatformInfo env = .error e →
          EnsureFFmpeg env net cb = ([.runVersion (initPaths env).ffmpegPath], some e))
        ∧ (∀ info, getPlatformInfo env = .ok info →
          (∃ rest, (EnsureFFmpeg env net cb).1
            = [.runVersion (initPaths env).ffmpegPath,
                .mkdirAll (Join [executableDir env, "resources", "ffmpeg",
                  env.GOOS ++ "-" ++ env.GOARCH])] ++ rest)
          ∧ (env.mkdirAllOk (Join [executableDir env, "resources", "ffmpeg",
                env.GOOS ++ "-" ++ env.GOARCH]) = true →
              SetupEvent.httpGet info.ffmpegURL ∈ (EnsureFFmpeg env net cb).1))) :=
  ⟨rfl, ensure_ready_path env net cb,
    fun h => ⟨fun e he => ensure_unsupported_path env net cb e h he,
      fun info hi => ensure_install_path env net cb info h hi⟩⟩

/-- C8: outside `windows-amd64`, `darwin-amd64`, `darwin-arm64` the platform
lookup returns the unsupported-platform error, and `EnsureFFmpeg`, when the
transcoder fails its self-test, returns that error after the self-test alone:
no callback, no directory, no request; each of the three supported
identifiers has an artifact. -/
theorem unsupported_platform_fails_fast (env : SysEnv) (net : NetEnv) (cb : Bool)
    (hplat : env.GOOS ++ "-" ++ env.GOARCH
      ∉ ["windows-amd64", "darwin-amd64", "darwin-arm64"]) :
    getPlatformInfo env = .error (.unsupportedPlatform (env.GOOS ++ "-" ++ env.GOARCH))
    ∧ (env.versionOk (initPaths env).ffmpegPath = false →
        EnsureFFmpeg env net cb
          = ([.runVersion (initPaths env).ffmpegPath],
              some (.unsupportedPlatform (env.GOOS ++ "-" ++ env.GOARCH))))
    ∧ (∀ env2 : SysEnv,
        env2.GOOS ++ "-" ++ env2.GOARCH ∈ ["windows-amd64", "darwin-amd64", "darwin-arm64"] →
        ∃ info, getPlatformInfo env2 = .ok info
          ∧ (env2.GOOS ++ "-" ++ env2.GOARCH, info) ∈ platformMap) :=
  ⟨getPlatformInfo_unsupported env hplat,
    fun h => ensure_unsupported_path env net cb _ h (getPlatformInfo_unsupported env hplat),
    fun env2 h2 => getPlatformInfo_supported env2 h2⟩

/-- C8 on `linux-amd64` with neither tool installed. -/
theorem unsupported_platform_fails_fast_witness :
    bareLinuxEnv.GOOS ++ "-" ++ bareLinuxEnv.GOARCH
      ∉ ["windows-amd64", "darwin-amd64", "darwin-arm64"]
    ∧ EnsureFFmpeg bareLinuxEnv offlineNet true
      = ([.runVersion "ffmpeg"], some (.unsupportedPlatform "linux-amd64")) := by
  have hp : initPaths bareLinuxEnv = ⟨"ffmpeg", "ffprobe"⟩ := by decide
  have h := (unsupported_platform_fails_fast bareLinuxEnv offlineNet true (by decide)).2.1
    (by rw [hp]; rfl)
  rw [hp] at h
  exact ⟨by decide, h⟩

/-! ## The binary resolver -/

theorem cleanChars_ne_nil (path : List Char) : cleanChars path ≠ [] := by
  unfold cleanChars
  cases path with
  | nil => simp
  | cons c rs =>
    simp only []
    generalize (if isPathSeparator c = true then cleanLoop true ((c :: rs).length + 1) rs ['/'] 1
      else cleanLoop false ((c :: rs).length + 1) (c :: rs) [] 0) = out
    split_ifs with h
    · simp
    · intro hnil
      rw [hnil] at h
      exact h rfl

theorem joinChars_ne_nil (elem : List (List Char)) (h : ∃ e ∈ elem, e ≠ []) :
    joinChars elem ≠ [] := by
  induction elem with
  | nil => obtain ⟨e, he, _⟩ := h; cases he
  | cons x xs ih =>
    unfold joinChars
    split_ifs with hx
    · apply ih
      obtain ⟨e, he, hne⟩ := h
      rcases List.mem_cons.1 he with rfl | he
      · exact absurd (List.isEmpty_iff.1 hx) hne
      · exact ⟨e, he, hne⟩
    · exact cleanChars_ne_nil _

theorem join_ne_empty (elem : List String) (h : ∃ e ∈ elem, e ≠ "") : Join elem ≠ "" := by
  intro hj
  have hd : joinChars (elem.map String.data) = [] := by
    have := congrArg String.data hj
    simpa [Join] using this
  refine joinChars_ne_nil _ ?_ hd
  obtain ⟨e, he, hne⟩ := h
  refine ⟨e.data, List.mem_map_of_mem _ he, ?_⟩
  intro hnil
  exact hne (String.ext hnil)

theorem ffmpegBinName_ne_empty (env : SysEnv) : ffmpegBinName env ≠ "" := by
  unfold ffmpegBinName
  split_ifs <;> decide

theorem ffprobeBinName_ne_empty (env : SysEnv) : ffprobeBinName env ≠ "" := by
  unfold ffprobeBinName
  split_ifs <;> decide

theorem initPaths_of_found (env : SysEnv) (found : String)
    (h : env.lookPath (ffmpegBinName env) = some found) :
    initPaths env = ⟨found, match env.lookPath (ffprobeBinName env) with
      | some probePath => probePath
      | none => ffprobeBinName env⟩ := by
  simp only [initPaths, h]
  cases env.lookPath (ffprobeBinName env) <;> rfl

theorem initPaths_of_not_found (env : SysEnv) (h : env.lookPath (ffmpegBinName env) = none) :
    initPaths env =
      (if env.statOk (Join [executableDir env, "resources", "ffmpeg",
          getPlatformDir env, ffmpegBinName env]) then
        ⟨Join [executableDir env, "resources", "ffmpeg", getPlatformDir env, ffmpegBinName env],
          Join [executableDir env, "resources", "ffmpeg", getPlatformDir env,
            ffprobeBinName env]⟩
      else if env.statOk (Join [executableDir env, "resources", "ffmpeg",
          ffmpegBinName env]) then
        ⟨Join [executableDir env, "resources", "ffmpeg", ffmpegBinName env],
          Join [executableDir env, "resources", "ffmpeg", ffprobeBinName env]⟩
      else if env.statOk (Join [executableDir env, ffmpegBinName env]) then
        ⟨Join [executableDir env, ffmpegBinName env], Join [executableDir env, ffprobeBinName env]⟩
      else ⟨ffmpegBinName env, ffprobeBinName env⟩) := by
  simp only [initPaths, h]

theorem initPaths_ffmpeg_eq_resolveTool (env : SysEnv) :
    (initPaths env).ffmpegPath = resolveTool env (ffmpegBinName env) := by
  cases h : env.lookPath (ffmpegBinName env) with
  | some found => rw [initPaths_of_found env found h]; simp only [resolveTool, h]
  | none =>
    rw [initPaths_of_not_found env h]
    simp only [resolveTool, h]
    split_ifs <;> rfl

/-- C9, as stated, fails: on `proberBesideAppEnv` the prober itself is first
found beside the running executable, but `initPaths` leaves the bare name
`ffprobe`, because the transcoder was found by the command search. -/
theorem prober_not_resolved_independently :
    (initPaths proberBesideAppEnv).ffprobePath = "ffprobe"
    ∧ resolveTool proberBesideAppEnv (ffprobeBinName proberBesideAppEnv)
        = "/opt/es-tools/ffprobe"
    ∧ (initPaths proberBesideAppEnv).ffprobePath
        ≠ resolveTool proberBesideAppEnv (ffprobeBinName proberBesideAppEnv) := by
  decide

/-- C9, amended: `initPaths` is total and leaves both paths non-empty. The
transcoder path follows the first-match-wins order (command search,
`resources/ffmpeg/<os>-<arch>/`, `resources/ffmpeg/`, the executable's
directory, the bare name). The prober path follows the transcoder: its own
command-search result, or its bare name, when the transcoder was found by the
command search; otherwise the prober's name in the directory where the
transcoder was found, without a check that it exists there; the bare name
when the transcoder was found nowhere. One machine for each of the five
locations is evaluated. -/
theorem initPaths_resolution (env : SysEnv) :
    (initPaths env).ffmpegPath ≠ ""
    ∧ (initPaths env).ffprobePath ≠ ""
    ∧ (initPaths env).ffmpegPath = resolveTool env (ffmpegBinName env)
    ∧ (∀ found, env.lookPath (ffmpegBinName env) = some found →
        (initPaths env).ffprobePath
          = (match env.lookPath (ffprobeBinName env) with
             | some probePath => probePath
             | none => ffprobeBinName env))
    ∧ (env.lookPath (ffmpegBinName env) = none →
        (initPaths env).ffprobePath
          = (if env.statOk (Join [executableDir env, "resources", "ffmpeg",
                getPlatformDir env, ffmpegBinName env]) then
              Join [executableDir env, "resources", "ffmpeg", getPlatformDir env,
                ffprobeBinName env]
            else if env.statOk (Join [executableDir env, "resources", "ffmpeg",
                ffmpegBinName env]) then
              Join [executableDir env, "resources", "ffmpeg", ffprobeBinName env]
            else if env.statOk (Join [executableDir env, ffmpegBinName env]) then
              Join [executableDir env, ffprobeBinName env]
            else ffprobeBinName env))
    ∧ initPaths brokenProberEnv = ⟨"/usr/local/bin/ffmpeg", "/usr/local/bin/ffprobe"⟩
    ∧ initPaths proberBesideAppEnv = ⟨"/usr/bin/ffmpeg", "ffprobe"⟩
    ∧ initPaths bundledEnv
        = ⟨"/Applications/es-tools/resources/ffmpeg/darwin-arm64/ffmpeg",
            "/Applications/es-tools/resources/ffmpeg/darwin-arm64/ffprobe"⟩
    ∧ initPaths flatBundleEnv
        = ⟨"/opt/es-tools/bin/resources/ffmpeg/ffmpeg",
            "/opt/es-tools/bin/resources/ffmpeg/ffprobe"⟩
    ∧ initPaths coLocatedEnv = ⟨"/opt/es-tools/ffmpeg.exe", "/opt/es-tools/ffprobe.exe"⟩
    ∧ initPaths bareLinuxEnv = ⟨"ffmpeg", "ffprobe"⟩ := by
  have hres : ∀ rest : List String, (∃ e ∈ rest, e ≠ "") →
      Join (executableDir env :: rest) ≠ "" := by
    intro rest ⟨e, he, hne⟩
    exact join_ne_empty _ ⟨e, List.mem_cons_of_mem _ he, hne⟩
  have hf := ffmpegBinName_ne_empty env
  have hq := ffprobeBinName_ne_empty env
  refine ⟨?_, ?_, initPaths_ffmpeg_eq_resolveTool env, ?_, ?_, by decide, by decide,
    by decide, by decide, by decide, by decide⟩
  · cases h1 : env.lookPath (ffmpegBinName env) with
    | some found =>
      rw [initPaths_of_found env found h1]
      exact env.lookPath_nonempty _ _ h1
    | none =>
      rw [initPaths_of_not_found env h1]
      split_ifs
      · exact hres _ ⟨_, by simp, hf⟩
      · exact hres _ ⟨_, by simp, hf⟩
      · exact hres _ ⟨_, by simp, hf⟩
      · exact hf
  · cases h1 : env.lookPath (ffmpegBinName env) with
    | some found =>
      rw [initPaths_of_found env found h1]
      cases h2 : env.lookPath (ffprobeBinName env) with
      | some p2 => exact env.lookPath_nonempty _ _ h2
      | none => exact hq
    | none =>
      rw [initPaths_of_not_found env h1]
      split_ifs
      · exact hres _ ⟨_, by simp, hq⟩
      · exact hres _ ⟨_, by simp, hq⟩
      · exact hres _ ⟨_, by simp, hq⟩
      · exact hq
  · intro found h1
    rw [initPaths_of_found env found h1]
  · intro h1
    rw [initPaths_of_not_found env h1]
    split_ifs <;> rfl

/-- C9 (amended) on `bundledEnv`: the command search knows only the prober,
the transcoder sits in the platform directory of the bundle, and the prober
path is put beside the transcoder although the prober is not there. -/
theorem initPaths_resolution_witness :
    bundledEnv.lookPath (ffmpegBinName bundledEnv) = none
    ∧ bundledEnv.lookPath (ffprobeBinName bundledEnv) = some "/usr/local/bin/ffprobe"
    ∧ bundledEnv.statOk "/Applications/es-tools/resources/ffmpeg/darwin-arm64/ffprobe" = false
    ∧ (initPaths bundledEnv).ffmpegPath ≠ ""
    ∧ (initPaths bundledEnv).ffprobePath ≠ ""
    ∧ (initPaths bundledEnv).ffprobePath
        = "/Applications/es-tools/resources/ffmpeg/darwin-arm64/ffprobe" :=
  ⟨by decide, by decide, by decide, (initPaths_resolution bundledEnv).1,
    (initPaths_resolution bundledEnv).2.1,
    ((initPaths_resolution bundledEnv).2.2.2.2.1 (by decide)).trans (by decide)⟩

/-! ## The media prober: alpha detection -/

theorem containsChars_mem (sub : List Char) (c : Char) (hc : c ∈ sub) :
    ∀ s : List Char, containsChars s sub = true → c ∈ s := by
  intro s
  induction s with
  | nil =>
    intro h
    simp only [containsChars, List.isEmpty_iff] at h
    rw [h] at hc
    cases hc
  | cons x xs ih =>
    intro h
    simp only [containsChars, Bool.or_eq_true] at h
    rcases h with h | h
    · obtain ⟨t, ht⟩ := List.isPrefixOf_iff_prefix.1 h
      rw [← ht]
      exact List.mem_append_left _ hc
    · exact List.mem_cons_of_mem _ (ih h)

theorem containsChars_singleton (c : Char) :
    ∀ s : List Char, containsChars s [c] = true ↔ c ∈ s := by
  intro s
  induction s with
  | nil => simp [containsChars]
  | cons x xs ih =>
    simp only [containsChars, Bool.or_eq_true, ih, List.mem_cons]
    constructor
    · rintro (h | h)
      · obtain ⟨t, ht⟩ := List.isPrefixOf_iff_prefix.1 h
        simp only [List.singleton_append, List.cons.injEq] at ht
        exact Or.inl ht.1
      · exact Or.inr h
    · rintro (h | h)
      · left
        rw [List.isPrefixOf_iff_prefix, h]
        exact ⟨xs, rfl⟩
      · exact Or.inr h

/-- The two longer patterns never change the alpha test: it is the test for
the single letter. -/
theorem hasAlphaOf_eq (pixFmt : String) : hasAlphaOf pixFmt = Contains pixFmt "a" := by
  unfold hasAlphaOf
  cases h : Contains pixFmt "a" with
  | true => rfl
  | false =>
    have hna : 'a' ∉ pixFmt.data := by
      intro hmem
      have : Contains pixFmt "a" = true := (containsChars_singleton 'a' pixFmt.data).2 hmem
      rw [h] at this
      cases this
    have h1 : Contains pixFmt "rgba" = false := by
      cases h1 : Contains pixFmt "rgba" with
      | false => rfl
      | true => exact absurd (containsChars_mem "rgba".data 'a' (by decide) _ h1) hna
    have h2 : Contains pixFmt "yuva" = false := by
      cases h2 : Contains pixFmt "yuva" with
      | false => rfl
      | true => exact absurd (containsChars_mem "yuva".data 'a' (by decide) _ h2) hna
    rw [h1, h2]
    rfl

theorem scanStreams_first_video (pre : List JObject) (stream : JObject)
    (post : List (Option JObject))
    (hpre : ∀ x ∈ pre, x "codec_type" ≠ .string "video")
    (hvideo : stream "codec_type" = .string "video") :
    scanStreams (pre.map some ++ some stream :: post)
      = some [ ("width", stream "width"),
               ("height", stream "height"),
               ("codec", stream "codec_name"),
               ("fps", stream "r_frame_rate"),
               ("pixelFormat", stream "pix_fmt"),
               ("hasAlpha", .bool (hasAlphaOf (sprintV (stream "pix_fmt")))) ] := by
  induction pre with
  | nil => simp [scanStreams, hvideo]
  | cons x xs ih =>
    have hx := hpre x (List.mem_cons_self _ _)
    simp only [List.map_cons, List.cons_append, scanStreams, hx, if_false]
    exact ih (fun y hy => hpre y (List.mem_cons_of_mem _ hy))

theorem scanStreams_some (ss : List (Option JObject)) :
    ∀ entries, scanStreams ss = some entries →
      entries = [] ∨
        ∃ (pre : List JObject) (stream : JObject) (post : List (Option JObject)),
          ss = pre.map some ++ some stream :: post
          ∧ (∀ x ∈ pre, x "codec_type" ≠ .string "video")
          ∧ stream "codec_type" = .string "video"
          ∧ entries = [ ("width", stream "width"),
                        ("height", stream "height"),
                        ("codec", stream "codec_name"),
                        ("fps", stream "r_frame_rate"),
                        ("pixelFormat", stream "pix_fmt"),
                        ("hasAlpha", .bool (hasAlphaOf (sprintV (stream "pix_fmt")))) ] := by
  induction ss with
  | nil => intro entries h; left; simpa [scanStreams] using h.symm
  | cons x xs ih =>
    intro entries h
    cases x with
    | none => simp [scanStreams] at h
    | some stream =>
      by_cases hv : stream "codec_type" = .string "video"
      · right
        refine ⟨[], stream, xs, rfl, by simp, hv, ?_⟩
        simpa [scanStreams, hv] using h.symm
      · simp only [scanStreams, hv, if_false] at h
        rcases ih entries h with h0 | ⟨pre, s2, post, h1, h2, h3, h4⟩
        · exact Or.inl h0
        · right
          refine ⟨stream :: pre, s2, post, by simp [h1], ?_, h3, h4⟩
          intro y hy
          rcases List.mem_cons.1 hy with rfl | hy
          · exact hv
          · exact h2 y hy

/-- C10: for every parsed report, `GetVideoInfo` returns a `hasAlpha` value
exactly when the streams are objects up to a first one whose `codec_type` is
`"video"`, and the value is then whether the rendered pixel format of that
stream contains the letter `a`; the `rgba` and `yuva` tests never change the
result; `gray` is reported as having alpha and `yuv420p` as not having it. -/
theorem hasAlpha_is_letter_a (r : ProbeReport) (v : JVal) :
    ((GetVideoInfo (.report r)).hasAlpha = some v ↔
      ∃ (pre : List JObject) (stream : JObject) (post : List (Option JObject)),
        r.streams = some (pre.map some ++ some stream :: post)
        ∧ (∀ x ∈ pre, x "codec_type" ≠ .string "video")
        ∧ stream "codec_type" = .string "video"
        ∧ v = .bool (Contains (sprintV (stream "pix_fmt")) "a"))
    ∧ (∀ pixFmt : String,
        hasAlphaOf pixFmt = Contains pixFmt "a"
          ∧ (Contains pixFmt "a" = true ↔ 'a' ∈ pixFmt.data))
    ∧ hasAlphaOf "gray" = true
    ∧ hasAlphaOf "yuv420p" = false := by
  refine ⟨⟨?_, ?_⟩, fun p => ⟨hasAlphaOf_eq p, containsChars_singleton 'a' _⟩,
    by decide, by decide⟩
  · intro h
    cases hs : r.streams with
    | none =>
      simp only [GetVideoInfo, hs] at h
      revert h
      cases r.format <;> simp [InfoResult.hasAlpha, List.lookup]
    | some ss =>
      cases hscan : scanStreams ss with
      | none => simp [GetVideoInfo, hs, hscan, InfoResult.hasAlpha] at h
      | some entries =>
        rcases scanStreams_some ss entries hscan with h0 | ⟨pre, stream, post, h1, h2, h3, h4⟩
        · subst h0
          simp only [GetVideoInfo, hs, hscan] at h
          revert h
          cases r.format <;> simp [InfoResult.hasAlpha, List.lookup]
        · refine ⟨pre, stream, post, by rw [h1], h2, h3, ?_⟩
          simp only [GetVideoInfo, hs, hscan, h4, hasAlphaOf_eq] at h
          revert h
          cases r.format <;> simp [InfoResult.hasAlpha, List.lookup] <;> exact fun h => h.symm
  · rintro ⟨pre, stream, post, hstreams, hpre, hvideo, hv⟩
    simp only [GetVideoInfo, hstreams, scanStreams_first_video pre stream post hpre hvideo, hv]
    rw [hasAlphaOf_eq]
    cases r.format <;> simp [InfoResult.hasAlpha, List.lookup]

/-- C10 on a report with an audio stream followed by a `gray` video stream,
and on one whose video stream is `yuv420p`. -/
theorem hasAlpha_is_letter_a_witness :
    (GetVideoInfo (.report
        ⟨none, some ([streamOf "audio" "fltp"].map some
          ++ some (streamOf "video" "gray") :: [])⟩)).hasAlpha = some (.bool true)
    ∧ (GetVideoInfo (.report
        ⟨none, some (([] : List JObject).map some
          ++ some (streamOf "video" "yuv420p") :: [])⟩)).hasAlpha = some (.bool false) := by
  refine ⟨((hasAlpha_is_letter_a _ _).1).2
      ⟨[streamOf "audio" "fltp"], streamOf "video" "gray", [], rfl, ?_, by decide, by decide⟩,
    ((hasAlpha_is_letter_a _ _).1).2
      ⟨[], streamOf "video" "yuv420p", [], rfl, ?_, by decide, by decide⟩⟩
  · intro x hx
    simp only [List.mem_singleton] at hx
    subst hx
    decide
  · intro x hx
    cases hx

end FFmpegTools
